import Mathlib

/-!
Verification development for the thyme theme-resolution core.

This file gives a shallow embedding of the data model and operations of
`src/theme.rs` and `src/theme_definition.rs`:

* the primitive parsers for colors (`ColorVisitor::visit_str`) and
  animation states (`AnimStateVisitor::visit_str`);
* the resolved-theme arena (`WidgetTheme`, `ThemeSet::new`'s local state),
  the deep merge (`merge_from`), subtree cloning (`add_children_recursive`)
  and the bounded fixpoint loop of `ThemeSet::new`.

Rust strings are modelled as `List Char`; machine integers carry no
overflow-relevant arithmetic here and are modelled as `Nat`.  Rust's
formatted error strings are modelled as constructors of error inductives,
one constructor per distinct `format!` message.  Fallible indexing
(`themes[i]`, which panics out of bounds in Rust) is modelled with a
default element; theorems carry the in-bounds hypotheses that the real
program maintains.
-/

set_option maxHeartbeats 1000000

deriving instance DecidableEq for Except

namespace Thyme

/-! ## Colors — `theme_definition.rs` lines 433-534 -/

/-- `Color` from `theme_definition.rs` (fields `r`, `g`, `b`, each a `u8`;
modelled as `Nat`, every value produced here is `≤ 255`). -/
structure Color where
  r : Nat
  g : Nat
  b : Nat
deriving DecidableEq

/-- `Color::white()` — `{ r: 255, g: 255, b: 255 }`. -/
def Color.white : Color := ⟨255, 255, 255⟩

/-- `Color::black()` — `{ r: 0, g: 0, b: 0 }`. -/
def Color.black : Color := ⟨0, 0, 0⟩

/-- `Color::red()` — `{ r: 255, g: 0, b: 0 }`. -/
def Color.red : Color := ⟨255, 0, 0⟩

/-- `Color::green()` — the source reads `{ r: 0, g: 255, b: 255 }`. -/
def Color.green : Color := ⟨0, 255, 255⟩

/-- `Color::blue()` — `{ r: 0, g: 0, b: 255 }`. -/
def Color.blue : Color := ⟨0, 0, 255⟩

/-- `Color::cyan()` — `{ r: 0, g: 255, b: 255 }`. -/
def Color.cyan : Color := ⟨0, 255, 255⟩

/-- `Color::yellow()` — `{ r: 255, g: 255, b: 0 }`. -/
def Color.yellow : Color := ⟨255, 255, 0⟩

/-- `Color::magenta()` — the source reads `{ r: 255, g: 255, b: 255 }`. -/
def Color.magenta : Color := ⟨255, 255, 255⟩

/-- Errors of `ColorVisitor::visit_str`, one constructor per `format!`
message in the source.  `invalidHexLength` stands for the message
"... is not a valid 3 or 6 character hex code" (produced both by the
multi-byte-character check and by the length match), `invalidComponent`
for "Unable to parse color component from ...", and `unknownName` for
"Unable to parse color from ....  Hex codes must start with #". -/
inductive ColorError where
  | invalidHexLength (value : List Char)
  | invalidComponent (input : List Char)
  | unknownName (value : List Char)
deriving DecidableEq

/-- Value of a single hexadecimal digit, as in `char::to_digit(16)`
(used by Rust's `u8::from_str_radix(_, 16)`); the code points 48-57,
97-102 and 65-70 are `0`-`9`, `a`-`f` and `A`-`F`. -/
def hexDigit? (c : Char) : Option Nat :=
  if 48 ≤ c.toNat ∧ c.toNat ≤ 57 then some (c.toNat - 48)
  else if 97 ≤ c.toNat ∧ c.toNat ≤ 102 then some (c.toNat - 97 + 10)
  else if 65 ≤ c.toNat ∧ c.toNat ≤ 70 then some (c.toNat - 65 + 10)
  else none

/-- Accumulate base-16 digits, failing on a non-digit.  Empty input is
rejected by the caller. -/
def hexDigitsVal : List Char → Option Nat → Option Nat
  | [], acc => acc
  | c :: rest, acc =>
    match acc, hexDigit? c with
    | some a, some d => hexDigitsVal rest (some (a * 16 + d))
    | _, _ => none

/-- `u8::from_str_radix(input, 16)`: an optional leading `+`, then a
nonempty run of hex digits, with the result rejected when it overflows
a `u8`. -/
def fromStrRadix16 (cs : List Char) : Option Nat :=
  let ds := if cs.head? = some '+' then cs.tail else cs
  if ds.isEmpty then none
  else
    match hexDigitsVal ds (some 0) with
    | none => none
    | some v => if v ≤ 255 then some v else none

/-- `hex_str_to_color_component` — `theme_definition.rs` lines 516-522. -/
def hexStrToColorComponent (input : List Char) : Except ColorError Nat :=
  match fromStrRadix16 input with
  | none => .error (.invalidComponent input)
  | some v => .ok v

/-- `ColorVisitor::visit_str` — `theme_definition.rs` lines 476-513.
`value.chars().count()` is the list length; `value.len()` (bytes) is the
sum of the UTF-8 sizes, so the `value.len() != count` guard (which rejects
multi-byte characters) is the sum-versus-length test.  After that guard
all characters are single-byte, so the byte slices `&value[1..3]` etc.
coincide with character slices. -/
def parseColor (value : List Char) : Except ColorError Color :=
  if value.head? = some '#' then
    let count := value.length
    if (value.map Char.utf8Size).sum ≠ value.length then
      .error (.invalidHexLength value)
    else
      if count = 4 then
        match hexStrToColorComponent ((value.drop 1).take 1) with
        | .error e => .error e
        | .ok r =>
          match hexStrToColorComponent ((value.drop 2).take 1) with
          | .error e => .error e
          | .ok g =>
            match hexStrToColorComponent ((value.drop 3).take 1) with
            | .error e => .error e
            | .ok b => .ok ⟨r * 17, g * 17, b * 17⟩
      else if count = 7 then
        match hexStrToColorComponent ((value.drop 1).take 2) with
        | .error e => .error e
        | .ok r =>
          match hexStrToColorComponent ((value.drop 3).take 2) with
          | .error e => .error e
          | .ok g =>
            match hexStrToColorComponent ((value.drop 5).take 2) with
            | .error e => .error e
            | .ok b => .ok ⟨r, g, b⟩
      else .error (.invalidHexLength value)
  else
    if value = "white".toList then .ok Color.white
    else if value = "black".toList then .ok Color.black
    else if value = "red".toList then .ok Color.red
    else if value = "green".toList then .ok Color.green
    else if value = "blue".toList then .ok Color.blue
    else if value = "cyan".toList then .ok Color.cyan
    else if value = "yellow".toList then .ok Color.yellow
    else if value = "magenta".toList then .ok Color.magenta
    else .error (.unknownName value)

/-! ## Animation states — `theme_definition.rs` lines 121-318 -/

/-- `AnimStateKey` — declaration order matters: the derived Rust `Ord`
orders the variants `Hover < Pressed < Disabled < Normal < Active`. -/
inductive AnimStateKey where
  | Hover
  | Pressed
  | Disabled
  | Normal
  | Active
deriving DecidableEq

/-- Rank of a key under the derived Rust `Ord` (declaration order). -/
def AnimStateKey.rank : AnimStateKey → Nat
  | .Hover => 0
  | .Pressed => 1
  | .Disabled => 2
  | .Normal => 3
  | .Active => 4

/-- The comparison used by `keys.sort()` on `[AnimStateKey; 4]`. -/
def keyLE (a b : AnimStateKey) : Prop := a.rank ≤ b.rank

instance : DecidableRel keyLE := fun a b => Nat.decLe a.rank b.rank

/-- `keys.sort()` on the 4-element key array.  `slice::sort` produces the
sorted permutation of its input; with a total order whose equal elements
are identical (duplicates can only be `Normal`), any sorted permutation is
the same list, so insertion sort is an exact model. -/
def sortKeys (keys : List AnimStateKey) : List AnimStateKey :=
  List.insertionSort keyLE keys

/-- Errors of `AnimStateVisitor::visit_str`, one constructor per
`format!` message: `tooManyKeys` for "Only a maximum of 4 AnimStateKeys
are allowed", `normalNotSole` for "Normal may only be specified as the
sole AnimStateKey" (both occurrences), `duplicateKey` for "Duplicate
AnimStateKey ...", and `unknownKey` for "Unable to parse AnimStateKey
from ...". -/
inductive AnimError where
  | tooManyKeys
  | normalNotSole
  | duplicateKey (key : AnimStateKey)
  | unknownKey (token : List Char)
deriving DecidableEq

/-- `str::split('+')`: splits at every separator, keeping empty pieces;
the result is always nonempty. -/
def splitOn (sep : Char) : List Char → List (List Char)
  | [] => [[]]
  | c :: rest =>
    match splitOn sep rest with
    | [] => [[c]]
    | t :: ts => if c = sep then [] :: t :: ts else (c :: t) :: ts

/-- `str::trim`: drop whitespace from both ends.  (Rust trims Unicode
`White_Space`; `Char.isWhitespace` agrees on the ASCII whitespace that can
occur in the inputs considered here.) -/
def trimChars (cs : List Char) : List Char :=
  ((cs.dropWhile Char.isWhitespace).reverse.dropWhile Char.isWhitespace).reverse

/-- `add_if_not_already_present` — `theme_definition.rs` lines 255-263:
scan the first `maxIndex` slots for a duplicate, else store the key at
`maxIndex`. -/
def addIfNotAlreadyPresent (keys : List AnimStateKey) (maxIndex : Nat)
    (key : AnimStateKey) : Except AnimError (List AnimStateKey) :=
  if key ∈ keys.take maxIndex then .error (.duplicateKey key)
  else .ok (keys.set maxIndex key)

/-- The token loop of `AnimStateVisitor::visit_str` (lines 214-251),
written with the running `key_index`, key array and `normal_found` flag as
explicit state.  On success the final `keys.sort()` is applied. -/
def animStateLoop : List (List Char) → Nat → List AnimStateKey → Bool →
    Except AnimError (List AnimStateKey)
  | [], _, keys, _ => .ok (sortKeys keys)
  | token :: rest, keyIndex, keys, normalFound =>
    if keyIndex ≥ 4 then .error .tooManyKeys
    else if normalFound then .error .normalNotSole
    else
      let t := trimChars token
      if t = "Normal".toList then
        if keyIndex ≠ 0 then .error .normalNotSole
        else animStateLoop rest (keyIndex + 1) keys true
      else if t = "Hover".toList then
        match addIfNotAlreadyPresent keys keyIndex .Hover with
        | .error e => .error e
        | .ok keys => animStateLoop rest (keyIndex + 1) keys normalFound
      else if t = "Pressed".toList then
        match addIfNotAlreadyPresent keys keyIndex .Pressed with
        | .error e => .error e
        | .ok keys => animStateLoop rest (keyIndex + 1) keys normalFound
      else if t = "Disabled".toList then
        match addIfNotAlreadyPresent keys keyIndex .Disabled with
        | .error e => .error e
        | .ok keys => animStateLoop rest (keyIndex + 1) keys normalFound
      else if t = "Active".toList then
        match addIfNotAlreadyPresent keys keyIndex .Active with
        | .error e => .error e
        | .ok keys => animStateLoop rest (keyIndex + 1) keys normalFound
      else .error (.unknownKey t)

/-- `AnimStateVisitor::visit_str` — the canonical (sorted) key array an
`AnimState` is parsed to, used as the lookup key of an image variant. -/
def parseAnimState (value : List Char) : Except AnimError (List AnimStateKey) :=
  animStateLoop (splitOn '+' value) 0
    [.Normal, .Normal, .Normal, .Normal] false

/-- The source-text name of a key, as matched by `visit_str`. -/
def keyName : AnimStateKey → List Char
  | .Hover => "Hover".toList
  | .Pressed => "Pressed".toList
  | .Disabled => "Disabled".toList
  | .Normal => "Normal".toList
  | .Active => "Active".toList

/-- A token that names a non-`Normal` key after trimming. -/
def ValidKeyToken (token : List Char) : Prop :=
  ∃ k : AnimStateKey, k ≠ .Normal ∧ trimChars token = keyName k

/-- The key a valid non-`Normal` token names (`.Normal` as a junk value
otherwise). -/
def tokenKey (token : List Char) : AnimStateKey :=
  if trimChars token = "Hover".toList then .Hover
  else if trimChars token = "Pressed".toList then .Pressed
  else if trimChars token = "Disabled".toList then .Disabled
  else if trimChars token = "Active".toList then .Active
  else .Normal

/-! ## The resolved-theme arena — `theme.rs`

Style payload types.  `Align`, `Layout`, `WidthRelative` and
`HeightRelative` are the enums of `theme_definition.rs`.  `Point` and
`Border` live in `point.rs` and `FontSummary` in `font.rs`, which are not
part of the sources given here; the merge only carries and compares their
values, so they are modelled from the spec as opaque records (the spec's
"position, size, layout spacing" pairs and "border insets"; the numeric
field type is immaterial to every claim and is taken as `Int`). -/

/-- `Align` — `theme_definition.rs` lines 350-360. -/
inductive Align where
  | Left | Right | Bot | Top | Center | BotLeft | BotRight | TopLeft | TopRight
deriving DecidableEq

/-- `Layout` — `theme_definition.rs` lines 325-335. -/
inductive Layout where
  | Horizontal | Vertical | Free
deriving DecidableEq

/-- `WidthRelative` — `theme_definition.rs` lines 393-399. -/
inductive WidthRelative where
  | Normal | Parent
deriving DecidableEq

/-- `HeightRelative` — `theme_definition.rs` lines 408-417. -/
inductive HeightRelative where
  | Normal | Parent | FontLine
deriving DecidableEq

/-- Modelled from the spec: `Point` of `point.rs` (not under `src/`), the
"position / size / layout spacing" pair; the merge never computes with it. -/
structure Point where
  x : Int
  y : Int
deriving DecidableEq

/-- Modelled from the spec: `Border` of `point.rs` (not under `src/`), the
"border insets"; the merge never computes with it. -/
structure Border where
  top : Int
  bot : Int
  left : Int
  right : Int
deriving DecidableEq

/-- Modelled from the spec: `FontSummary` of `font.rs` (not under `src/`),
a resolved font handle with its line height; the merge never computes with
it. -/
structure FontSummary where
  handle : Nat
  lineHeight : Int
deriving DecidableEq

/-- `ImageHandle` — an index into the image table (`image.rs`, used as
`ImageHandle { id: index }` in `theme.rs` line 82). -/
structure ImageHandle where
  id : Nat
deriving DecidableEq

/-- `WidgetTheme` — `theme.rs` lines 218-247.  `WidgetThemeHandle` wraps a
`u64` index and is modelled as `Nat`.  The Rust field `from` is a Lean
keyword and is named `fromRef` here. -/
structure WidgetTheme where
  fromRef : Option String
  full_id : String
  id : String
  parent_handle : Option Nat
  handle : Nat
  text : Option String
  text_color : Option Color
  font : Option FontSummary
  background : Option ImageHandle
  foreground : Option ImageHandle
  wants_mouse : Option Bool
  text_align : Option Align
  pos : Option Point
  size : Option Point
  width_from : Option WidthRelative
  height_from : Option HeightRelative
  border : Option Border
  align : Option Align
  child_align : Option Align
  layout : Option Layout
  layout_spacing : Option Point
  children : List Nat
deriving DecidableEq

/-- The all-unset record, used as the out-of-bounds default of the total
indexing function (Rust indexing panics instead; theorems carry the
in-bounds hypotheses). -/
def WidgetTheme.empty : WidgetTheme :=
  { fromRef := none, full_id := "", id := "", parent_handle := none,
    handle := 0, text := none, text_color := none, font := none,
    background := none, foreground := none, wants_mouse := none,
    text_align := none, pos := none, size := none, width_from := none,
    height_from := none, border := none, align := none, child_align := none,
    layout := none, layout_spacing := none, children := [] }

instance : Inhabited WidgetTheme := ⟨WidgetTheme.empty⟩

/-- The mutable local state of `ThemeSet::new` during reference
resolution: the arena `themes`, the path index `theme_handles` (a hash
map, modelled as an association list with unique keys) and the handle
counter `handle_index`. -/
structure ResolveState where
  themes : List WidgetTheme
  themeHandles : List (String × Nat)
  handleIndex : Nat
deriving DecidableEq

/-- `themes[i]` (total, with the empty record out of bounds). -/
def getTheme (themes : List WidgetTheme) (i : Nat) : WidgetTheme :=
  themes.getD i WidgetTheme.empty

/-- `HashMap::insert`: replace any existing binding of the key. -/
def insertHandle (hs : List (String × Nat)) (k : String) (v : Nat) :
    List (String × Nat) :=
  hs.filter (fun p => p.1 != k) ++ [(k, v)]

/-- `HashMap::get`. -/
def lookupHandle (hs : List (String × Nat)) (k : String) : Option Nat :=
  (hs.find? (fun p => p.1 == k)).map Prod.snd

/-- One `if to.field.is_none() { to.field = from.field; }` assignment. -/
def overrideIfUnset {α : Type} (toF fromF : Option α) : Option α :=
  match toF with
  | none => fromF
  | some v => some v

/-- The scalar-field block of `merge_from` — `theme.rs` lines 360-382:
`to.from = from.from;` followed by the fourteen `is_none()` guarded
assignments.  Note that the source assigns neither `text` nor
`text_color`: the destination's values of those two fields are kept
unconditionally. -/
def mergeFromScalars (fromT toT : WidgetTheme) : WidgetTheme :=
  { toT with
    fromRef := fromT.fromRef,
    wants_mouse := overrideIfUnset toT.wants_mouse fromT.wants_mouse,
    font := overrideIfUnset toT.font fromT.font,
    background := overrideIfUnset toT.background fromT.background,
    foreground := overrideIfUnset toT.foreground fromT.foreground,
    text_align := overrideIfUnset toT.text_align fromT.text_align,
    pos := overrideIfUnset toT.pos fromT.pos,
    size := overrideIfUnset toT.size fromT.size,
    width_from := overrideIfUnset toT.width_from fromT.width_from,
    height_from := overrideIfUnset toT.height_from fromT.height_from,
    border := overrideIfUnset toT.border fromT.border,
    align := overrideIfUnset toT.align fromT.align,
    child_align := overrideIfUnset toT.child_align fromT.child_align,
    layout := overrideIfUnset toT.layout fromT.layout,
    layout_spacing := overrideIfUnset toT.layout_spacing fromT.layout_spacing }

/-- The `from.full_id = format!("\x7b\x7d/\x7b\x7d", full_id, from.id)`
assignment of `theme.rs` lines 466-467: the ORIGINAL source child's
`full_id` is overwritten with the destination-rooted path before the
child is cloned. -/
def aclStep (fc : Nat) (fullId : String) (s : ResolveState) : ResolveState :=
  { s with
    themes := s.themes.set fc
      ({ getTheme s.themes fc with full_id := fullId ++ "/" ++ (getTheme s.themes fc).id }) }

/-- The pre-loop body of `add_children_recursive` — `theme.rs` lines
444-462: allocate the fresh handle `handle_index`, compute the
destination-rooted path, push the cloned source record (its child list
drained), register the new path in the index, and push the new handle
onto the destination's child list. -/
def acrStep (fromId toId : Nat) (s : ResolveState) : ResolveState :=
  let fromT := getTheme s.themes fromId
  let toT := getTheme s.themes toId
  let handle := s.handleIndex
  let fullId := toT.full_id ++ "/" ++ fromT.id
  let cloned : WidgetTheme :=
    { fromT with full_id := fullId, handle := handle,
                 parent_handle := some toId, children := [] }
  { themes := (s.themes.set toId { toT with children := toT.children ++ [handle] }) ++ [cloned],
    themeHandles := insertHandle s.themeHandles fullId handle,
    handleIndex := s.handleIndex + 1 }

/-- The trailing `for from_child in from_children` loop of
`add_children_recursive` (`theme.rs` lines 464-470), parameterized by the
recursive call `step`: overwrite the original child's `full_id` with the
destination-rooted path (`aclStep`), then recurse on it. -/
def addChildrenGo (step : Nat → Nat → ResolveState → Option ResolveState) :
    List Nat → String → Nat → ResolveState → Option ResolveState
  | [], _, _, s => some s
  | fc :: rest, fullId, handle, s =>
    match step fc handle (aclStep fc fullId s) with
    | none => none
    | some s2 => addChildrenGo step rest fullId handle s2

/-- `add_children_recursive` — `theme.rs` lines 437-471: the `acrStep`
body above, then the recursive clone of the source's children.  The Rust
recursion is unbounded; `fuel` models it (`none` stands for a
non-terminating recursion, impossible on the arenas the program
builds). -/
def addChildrenRecursive (fuel : Nat) : Nat → Nat → ResolveState → Option ResolveState :=
  match fuel with
  | 0 => fun _ _ _ => none
  | fuel' + 1 => fun fromId toId s =>
    addChildrenGo (addChildrenRecursive fuel') (getTheme s.themes fromId).children
      ((getTheme s.themes toId).full_id ++ "/" ++ (getTheme s.themes fromId).id)
      s.handleIndex (acrStep fromId toId s)

/-- The clone-children loop at a given fuel. -/
def addChildrenList (fuel : Nat) (fcs : List Nat) (fullId : String)
    (handle : Nat) (s : ResolveState) : Option ResolveState :=
  addChildrenGo (addChildrenRecursive fuel) fcs fullId handle s

/-- The trailing clone loop of `merge_from` (`theme.rs` lines 410-434):
for each source child with no same-id destination child, clone its
subtree into the destination. -/
def addMissingChildren (fuel : Nat) (fromChildren toChildren : List Nat)
    (toId : Nat) (s : ResolveState) : Option ResolveState :=
  match fromChildren with
  | [] => some s
  | fc :: rest =>
    let found := toChildren.any
      (fun tc => (getTheme s.themes fc).id == (getTheme s.themes tc).id)
    if found then addMissingChildren fuel rest toChildren toId s
    else
      match addChildrenRecursive fuel fc toId s with
      | none => none
      | some s2 => addMissingChildren fuel rest toChildren toId s2

/-- The scalar-block application of `merge_from`: write the merged
record back at the destination index. -/
def mfStep (fromId toId : Nat) (s : ResolveState) : ResolveState :=
  { s with
    themes := s.themes.set toId
      (mergeFromScalars (getTheme s.themes fromId) (getTheme s.themes toId)) }

/-- The first `for child_id in to_children` loop of `merge_from`
(`theme.rs` lines 384-408), parameterized by the recursive call `step`:
find the first source child with the same local id and merge it into the
destination child. -/
def mergeChildPairs (step : Nat → Nat → ResolveState → Option ResolveState) :
    List Nat → List Nat → ResolveState → Option ResolveState
  | [], _, s => some s
  | childId :: rest, fromChildren, s =>
    match fromChildren.find?
        (fun fc => (getTheme s.themes fc).id == (getTheme s.themes childId).id) with
    | none => mergeChildPairs step rest fromChildren s
    | some fromId =>
      match step fromId childId s with
      | none => none
      | some s2 => mergeChildPairs step rest fromChildren s2

/-- `merge_from` — `theme.rs` lines 353-435: snapshot the source and the
destination's child list, apply the scalar block, merge same-id child
pairs recursively, then clone in the source-only children.  `fuel` models
the unbounded Rust recursion as in `addChildrenRecursive`. -/
def mergeFrom (fuel : Nat) : Nat → Nat → ResolveState → Option ResolveState :=
  match fuel with
  | 0 => fun _ _ _ => none
  | fuel' + 1 => fun fromId toId s =>
    match mergeChildPairs (mergeFrom fuel') (getTheme s.themes toId).children
        (getTheme s.themes fromId).children (mfStep fromId toId s) with
    | none => none
    | some s2 =>
      addMissingChildren fuel' (getTheme s.themes fromId).children
        (getTheme s.themes toId).children toId s2

/-- The matched-children loop at a given fuel. -/
def mergeMatching (fuel : Nat) (toChildren fromChildren : List Nat)
    (s : ResolveState) : Option ResolveState :=
  mergeChildPairs (mergeFrom fuel) toChildren fromChildren s

/-! ## The fixpoint loop of `ThemeSet::new` — `theme.rs` lines 105-152 -/

/-- Errors of the loop, one constructor per source error:
`circularReference` for "Unable to resolve all from references after `{n}`
iterations.  This is most likely caused by a circular reference.",
`invalidFrom` for "Invalid from theme '...' in '...'".
`mergeRecursionDiverged` is a model artifact standing for a
non-terminating `merge_from` recursion (the model's fuel running out);
no claim exercises it. -/
inductive ThemeError where
  | circularReference (iterations : Nat)
  | invalidFrom (fromStr : String) (inId : String)
  | mergeRecursionDiverged
deriving DecidableEq

/-- Fuel handed to `mergeFrom` by the loop; on the arenas the program
builds (strictly child-increasing handles) the recursion depth is below
the arena size, so this fuel is never exhausted. -/
def mergeFuel (s : ResolveState) : Nat := s.themes.length + 1

/-- One iteration of the `for to_id in to_ids` loop (`theme.rs` lines
121-148): skip fully resolved records, fail on an unknown reference name,
postpone sources that still have their own pending reference, otherwise
take the destination's reference and merge. -/
def resolvePassStep (s : ResolveState) (foundNew : Bool) (toId : Nat) :
    Except ThemeError (ResolveState × Bool) :=
  match (getTheme s.themes toId).fromRef with
  | none => .ok (s, foundNew)
  | some fromStr =>
    match lookupHandle s.themeHandles fromStr with
    | none => .error (.invalidFrom fromStr (getTheme s.themes toId).id)
    | some fromId =>
      if (getTheme s.themes fromId).fromRef.isSome then .ok (s, true)
      else
        let toT := getTheme s.themes toId
        let s1 : ResolveState :=
          { s with themes := s.themes.set toId { toT with fromRef := none } }
        match mergeFrom (mergeFuel s1) fromId toId s1 with
        | none => .error .mergeRecursionDiverged
        | some s2 => .ok (s2, true)

/-- One pass over the snapshot of handles. -/
def resolvePass (toIds : List Nat) (s : ResolveState) (foundNew : Bool) :
    Except ThemeError (ResolveState × Bool) :=
  match toIds with
  | [] => .ok (s, foundNew)
  | toId :: rest =>
    match resolvePassStep s foundNew toId with
    | .error e => .error e
    | .ok (s2, f2) => resolvePass rest s2 f2

/-- `MAX_ITERATIONS` — `theme.rs` line 108. -/
def MAX_ITERATIONS : Nat := 20

/-- The snapshot `theme_handles.values().copied().collect()`; a hash map
iterates in an unspecified order, the association-list order stands for
one admissible order. -/
def snapshotOf (s : ResolveState) : List Nat := s.themeHandles.map Prod.snd

/-- The `loop` of `ThemeSet::new`, driven by the remaining iteration
budget (`remaining = MAX_ITERATIONS - iteration`): at budget zero the
`iteration == MAX_ITERATIONS` check fires with the circular-reference
error, otherwise run one pass and stop as soon as it found no pending
reference. -/
def resolveLoopAux : Nat → Nat → ResolveState → Except ThemeError ResolveState
  | 0, iteration, _ => .error (.circularReference iteration)
  | remaining + 1, iteration, s =>
    match resolvePass (snapshotOf s) s false with
    | .error e => .error e
    | .ok (s2, foundNew) =>
      if foundNew then resolveLoopAux remaining (iteration + 1) s2
      else .ok s2

/-- The whole reference-resolution fixpoint of `ThemeSet::new`. -/
def resolveFromRefs (s : ResolveState) : Except ThemeError ResolveState :=
  resolveLoopAux MAX_ITERATIONS 0 s

/-- Number of passes the loop body executes, same recursion structure as
`resolveLoopAux`. -/
def resolveLoopPasses : Nat → ResolveState → Nat
  | 0, _ => 0
  | remaining + 1, s =>
    match resolvePass (snapshotOf s) s false with
    | .error _ => 1
    | .ok (s2, foundNew) => if foundNew then 1 + resolveLoopPasses remaining s2 else 1

/-- Passes performed by `resolveFromRefs`. -/
def resolvePasses (s : ResolveState) : Nat :=
  resolveLoopPasses MAX_ITERATIONS s

/-! ## Specification-side notions used by the theorems -/

/-- Arena well-formedness maintained by the theme graph builder and the
resolver: the handle counter equals the arena size, and every child
handle is strictly greater than its parent's and in bounds (the spec's
"a child's handle is always numerically greater than its parent's"). -/
def WF (s : ResolveState) : Prop :=
  s.handleIndex = s.themes.length ∧
  ∀ i, i < s.themes.length →
    ∀ c ∈ (getTheme s.themes i).children, i < c ∧ c < s.themes.length

instance : ∀ s : ResolveState, Decidable (WF s) := fun s =>
  decidable_of_iff (s.handleIndex = s.themes.length ∧
    ∀ i, i < s.themes.length →
      ∀ c ∈ (getTheme s.themes i).children, i < c ∧ c < s.themes.length) Iff.rfl

/-- Direct parent-to-child step in the arena. -/
def childRel (themes : List WidgetTheme) (a b : Nat) : Prop :=
  b ∈ (getTheme themes a).children

/-- `Reaches themes a b`: `b` is in the subtree rooted at `a`. -/
def Reaches (themes : List WidgetTheme) : Nat → Nat → Prop :=
  Relation.ReflTransGen (childRel themes)

/-- The record fields that carry authored values: everything except the
structural bookkeeping (`handle`, `parent_handle`, `full_id`,
`children`). -/
structure ScalarFields where
  fromRef : Option String
  id : String
  text : Option String
  text_color : Option Color
  font : Option FontSummary
  background : Option ImageHandle
  foreground : Option ImageHandle
  wants_mouse : Option Bool
  text_align : Option Align
  pos : Option Point
  size : Option Point
  width_from : Option WidthRelative
  height_from : Option HeightRelative
  border : Option Border
  align : Option Align
  child_align : Option Align
  layout : Option Layout
  layout_spacing : Option Point
deriving DecidableEq

instance : Inhabited ScalarFields :=
  ⟨{ fromRef := none, id := "", text := none, text_color := none,
     font := none, background := none, foreground := none,
     wants_mouse := none, text_align := none, pos := none, size := none,
     width_from := none, height_from := none, border := none, align := none,
     child_align := none, layout := none, layout_spacing := none }⟩

/-- Project a record to its value-carrying fields. -/
def fieldsOf (t : WidgetTheme) : ScalarFields :=
  { fromRef := t.fromRef, id := t.id, text := t.text,
    text_color := t.text_color, font := t.font, background := t.background,
    foreground := t.foreground, wants_mouse := t.wants_mouse,
    text_align := t.text_align, pos := t.pos, size := t.size,
    width_from := t.width_from, height_from := t.height_from,
    border := t.border, align := t.align, child_align := t.child_align,
    layout := t.layout, layout_spacing := t.layout_spacing }

/-- A subtree of the arena, as the tree of its value-carrying fields
(shape plus field values, independent of handles and paths), cut off at
depth `d`. -/
inductive FieldTree where
  | node (fields : ScalarFields) (children : List FieldTree)

/-- `fieldTreeOf d themes h`: the field tree of the subtree rooted at `h`
to depth `d`. -/
def fieldTreeOf (d : Nat) : List WidgetTheme → Nat → FieldTree :=
  match d with
  | 0 => fun _ _ => .node default []
  | d' + 1 => fun themes h =>
    .node (fieldsOf (getTheme themes h))
      ((getTheme themes h).children.map (fieldTreeOf d' themes))

/-- The local ids of a record's children. -/
def childIds (themes : List WidgetTheme) (h : Nat) : List String :=
  (getTheme themes h).children.map (fun c => (getTheme themes c).id)

instance : Fintype AnimStateKey :=
  ⟨⟨{AnimStateKey.Hover, AnimStateKey.Pressed, AnimStateKey.Disabled,
     AnimStateKey.Normal, AnimStateKey.Active}, by decide⟩,
   fun x => by cases x <;> decide⟩

instance : DecidablePred ValidKeyToken := fun t =>
  decidable_of_iff (∃ k : AnimStateKey, ¬ k = .Normal ∧ trimChars t = keyName k) Iff.rfl

instance : IsTotal AnimStateKey keyLE := ⟨fun a b => Nat.le_total a.rank b.rank⟩

instance : IsTrans AnimStateKey keyLE := ⟨fun _ _ _ hab hbc => Nat.le_trans hab hbc⟩

instance : IsAntisymm AnimStateKey keyLE := ⟨fun a b hab hba => by
  have h : a.rank = b.rank := Nat.le_antisymm hab hba
  cases a <;> cases b <;> first | rfl | exact absurd h (by decide)⟩

/-! ### Concrete arenas used by counterexamples and witnesses -/

/-- The spec's circular-reference example: two top-level themes with
`A.from = "B"` and `B.from = "A"`. -/
def cycleState : ResolveState :=
  { themes :=
      [{ WidgetTheme.empty with id := "A", full_id := "A", handle := 0, fromRef := some "B" },
       { WidgetTheme.empty with id := "B", full_id := "B", handle := 1, fromRef := some "A" }],
    themeHandles := [("A", 0), ("B", 1)],
    handleIndex := 2 }

/-- A fully resolved arena: one theme, no pending reference. -/
def noopState : ResolveState :=
  { themes := [{ WidgetTheme.empty with id := "A", full_id := "A", handle := 0 }],
    themeHandles := [("A", 0)],
    handleIndex := 1 }


/-! ### Invariant bundles for the merge development -/

/-- All record fields except `full_id` and `children` agree (the clone
loop rewrites only `full_id`s of pre-existing records, and appends). -/
def EqExceptPath (told tnew : WidgetTheme) : Prop :=
  fieldsOf tnew = fieldsOf told ∧ tnew.handle = told.handle ∧
  tnew.parent_handle = told.parent_handle

/-- What one `addChildrenRecursive` call preserves and produces. -/
def AcrPres (fuel : Nat) : Prop :=
  ∀ fromId toId s s', WF s → toId < s.themes.length →
    addChildrenRecursive fuel fromId toId s = some s' →
    WF s' ∧ s.themes.length < s'.themes.length ∧
    (∀ i, i < s.themes.length → EqExceptPath (getTheme s.themes i) (getTheme s'.themes i)) ∧
    (∀ i, i < s.themes.length → i ≠ toId →
      (getTheme s'.themes i).children = (getTheme s.themes i).children) ∧
    (getTheme s'.themes toId).children
      = (getTheme s.themes toId).children ++ [s.themes.length] ∧
    fieldsOf (getTheme s'.themes s.themes.length) = fieldsOf (getTheme s.themes fromId)

/-- What the clone-children loop preserves. -/
def AclPres (fuel : Nat) : Prop :=
  ∀ fcs fullId handle s s', WF s → handle < s.themes.length →
    addChildrenList fuel fcs fullId handle s = some s' →
    WF s' ∧ s.themes.length ≤ s'.themes.length ∧
    (∀ i, i < s.themes.length → EqExceptPath (getTheme s.themes i) (getTheme s'.themes i)) ∧
    (∀ i, i < s.themes.length → i ≠ handle →
      (getTheme s'.themes i).children = (getTheme s.themes i).children)

/-- What one `mergeFrom` call does to the destination and preserves below
it: ids everywhere, records strictly below the destination, the merged
scalar block at the destination, and the child-list extension by clones
of exactly the unmatched source children. -/
def MfPres (fuel : Nat) : Prop :=
  ∀ fromId toId s s', WF s → toId < s.themes.length → fromId < s.themes.length →
    mergeFrom fuel fromId toId s = some s' →
    WF s' ∧ s.themes.length ≤ s'.themes.length ∧
    (∀ i, i < s.themes.length →
      (getTheme s'.themes i).id = (getTheme s.themes i).id) ∧
    (∀ i, i < s.themes.length → i < toId →
      fieldsOf (getTheme s'.themes i) = fieldsOf (getTheme s.themes i) ∧
      (getTheme s'.themes i).children = (getTheme s.themes i).children) ∧
    fieldsOf (getTheme s'.themes toId)
      = fieldsOf (mergeFromScalars (getTheme s.themes fromId) (getTheme s.themes toId)) ∧
    (∃ added, (getTheme s'.themes toId).children
        = (getTheme s.themes toId).children ++ added ∧
      added.map (fun h => (getTheme s'.themes h).id)
        = ((getTheme s.themes fromId).children.filter
            (fun fc => ! (getTheme s.themes toId).children.any
              (fun tc => (getTheme s.themes fc).id == (getTheme s.themes tc).id))).map
            (fun fc => (getTheme s.themes fc).id))

/-- What the matched-children loop preserves (`lo` is a ghost lower bound
on every merge target). -/
def MmPres (fuel : Nat) : Prop :=
  ∀ tcs fcs lo s s', WF s →
    (∀ tc ∈ tcs, tc < s.themes.length ∧ lo < tc) →
    (∀ fc ∈ fcs, fc < s.themes.length) →
    mergeMatching fuel tcs fcs s = some s' →
    WF s' ∧ s.themes.length ≤ s'.themes.length ∧
    (∀ i, i < s.themes.length →
      (getTheme s'.themes i).id = (getTheme s.themes i).id) ∧
    (∀ i, i < s.themes.length → i ≤ lo →
      fieldsOf (getTheme s'.themes i) = fieldsOf (getTheme s.themes i) ∧
      (getTheme s'.themes i).children = (getTheme s.themes i).children)

/-- What the clone-missing-children loop preserves and appends. -/
def AmPres (fuel : Nat) : Prop :=
  ∀ fcs tcs toId s s', WF s → toId < s.themes.length →
    (∀ fc ∈ fcs, fc < s.themes.length) → (∀ tc ∈ tcs, tc < s.themes.length) →
    addMissingChildren fuel fcs tcs toId s = some s' →
    WF s' ∧ s.themes.length ≤ s'.themes.length ∧
    (∀ i, i < s.themes.length → EqExceptPath (getTheme s.themes i) (getTheme s'.themes i)) ∧
    (∀ i, i < s.themes.length → i ≠ toId →
      (getTheme s'.themes i).children = (getTheme s.themes i).children) ∧
    (∃ added, (getTheme s'.themes toId).children
        = (getTheme s.themes toId).children ++ added ∧
      added.map (fun h => (getTheme s'.themes h).id)
        = (fcs.filter
            (fun fc => ! tcs.any
              (fun tc => (getTheme s.themes fc).id == (getTheme s.themes tc).id))).map
            (fun fc => (getTheme s.themes fc).id))

/-- The clone built by `addChildrenRecursive` has, at every depth, the
same field tree as the original source subtree (which must not contain
the destination). -/
def AcrTree (fuel : Nat) : Prop :=
  ∀ fromId toId s s', WF s → fromId < s.themes.length → toId < s.themes.length →
    ¬ Reaches s.themes fromId toId →
    addChildrenRecursive fuel fromId toId s = some s' →
    ∀ d, fieldTreeOf d s'.themes s.themes.length = fieldTreeOf d s.themes fromId

/-- The clone-children loop appends clones pairwise tree-equal to the
source children (all of whose subtrees lie strictly below `handle`). -/
def AclTree (fuel : Nat) : Prop :=
  ∀ fcs fullId handle s s', WF s → handle < s.themes.length →
    (∀ fc ∈ fcs, fc < s.themes.length ∧ ∀ x, Reaches s.themes fc x → x < handle) →
    addChildrenList fuel fcs fullId handle s = some s' →
    ∃ hs, (getTheme s'.themes handle).children
        = (getTheme s.themes handle).children ++ hs ∧
      List.Forall₂ (fun h fc => ∀ d,
        fieldTreeOf d s'.themes h = fieldTreeOf d s.themes fc) hs fcs


/-- C1 scenario: destination (index 0) with unset fields, fully resolved
source (index 1) with `text`, `text_color` and `wants_mouse` set. -/
def ce1State : ResolveState :=
  { themes :=
      [{ WidgetTheme.empty with id := "t", full_id := "t", handle := 0 },
       { WidgetTheme.empty with id := "f", full_id := "f", handle := 1, text_color := some Color.red, text := some "x", wants_mouse := some true }],
    themeHandles := [("t", 0), ("f", 1)],
    handleIndex := 2 }

/-- The merged state of the C1 scenario. -/
def c1Res : ResolveState := (mergeFrom 1 1 0 ce1State).getD ce1State

/-- C4 scenario: the destination (index 0) has a child (index 1, local id
"c") with its own pending reference `"X"`; the source (index 2) has a
matching child (index 3, same local id) with no pending reference. -/
def ce4State : ResolveState :=
  { themes :=
      [{ WidgetTheme.empty with id := "t", full_id := "t", handle := 0, children := [1] },
       { WidgetTheme.empty with id := "c", full_id := "t/c", handle := 1, parent_handle := some 0, fromRef := some "X" },
       { WidgetTheme.empty with id := "f", full_id := "f", handle := 2, children := [3] },
       { WidgetTheme.empty with id := "c", full_id := "f/c", handle := 3, parent_handle := some 2 }],
    themeHandles := [("t", 0), ("t/c", 1), ("f", 2), ("f/c", 3)],
    handleIndex := 4 }

/-- The merged state of the C4 scenario. -/
def c4Res : ResolveState := (mergeFrom 2 2 0 ce4State).getD ce4State

/-- C2 scenario: a destination `D` (index 0) and a source subtree
`A` (index 1) with child `B` (index 2, full id `"A/B"`). -/
def ce2State : ResolveState :=
  { themes :=
      [{ WidgetTheme.empty with id := "D", full_id := "D", handle := 0 },
       { WidgetTheme.empty with id := "A", full_id := "A", handle := 1, children := [2] },
       { WidgetTheme.empty with id := "B", full_id := "A/B", handle := 2, parent_handle := some 1 }],
    themeHandles := [("D", 0), ("A", 1), ("A/B", 2)],
    handleIndex := 3 }

/-- The state after cloning subtree `A` into `D` in the C2 scenario. -/
def c2Res : ResolveState := (addChildrenRecursive 3 1 0 ce2State).getD ce2State

/-- C5 scenario: destination (index 0) without children, source (index 1)
with one child "k" (index 2). -/
def c5State : ResolveState :=
  { themes :=
      [{ WidgetTheme.empty with id := "t", full_id := "t", handle := 0 },
       { WidgetTheme.empty with id := "f", full_id := "f", handle := 1, children := [2] },
       { WidgetTheme.empty with id := "k", full_id := "f/k", handle := 2, parent_handle := some 1, text := some "hello" }],
    themeHandles := [("t", 0), ("f", 1), ("f/k", 2)],
    handleIndex := 3 }

/-- The merged state of the C5 scenario. -/
def c5Res : ResolveState := (mergeFrom 2 1 0 c5State).getD c5State

/-- The C5 scenario after cloning the source subtree (index 1) into the
destination (index 0) directly with `addChildrenRecursive`. -/
def c5AcrRes : ResolveState := (addChildrenRecursive 2 1 0 c5State).getD c5State

/-! ## END OF DEFINITIONS — theorems follow -/

/-- A character whose code point is at most 127 is one UTF-8 byte. -/
theorem helperUtf8One (c : Char) (h : c.toNat ≤ 127) : c.utf8Size = 1 := by
  unfold Char.utf8Size
  rw [if_pos]
  rw [UInt32.le_def, BitVec.le_def]
  exact h

/-- A hexadecimal digit is ASCII, is worth at most 15 and is not `+`. -/
theorem helperHexDigitProps (c : Char) (v : Nat) (h : hexDigit? c = some v) :
    c.utf8Size = 1 ∧ v ≤ 15 ∧ ¬ c = '+' := by
  unfold hexDigit? at h
  split_ifs at h with h1 h2 h3
  · injection h with hv
    exact ⟨helperUtf8One c (by omega), by omega, fun hc => absurd h1 (by subst hc; decide)⟩
  · injection h with hv
    exact ⟨helperUtf8One c (by omega), by omega, fun hc => absurd h2 (by subst hc; decide)⟩
  · injection h with hv
    exact ⟨helperUtf8One c (by omega), by omega, fun hc => absurd h3 (by subst hc; decide)⟩

/-- A single hex digit parses as a color component with its digit value. -/
theorem helperHexComponent1 (c : Char) (v : Nat) (h : hexDigit? c = some v) :
    hexStrToColorComponent [c] = .ok v := by
  obtain ⟨-, hv, hp⟩ := helperHexDigitProps c v h
  have hne : ¬ ([c].head? = some '+') := by simp [hp]
  unfold hexStrToColorComponent fromStrRadix16
  rw [if_neg hne]
  simp only [List.isEmpty_cons, if_false, Bool.false_eq_true]
  unfold hexDigitsVal
  rw [h]
  unfold hexDigitsVal
  simp [Nat.zero_mul, if_pos (le_trans hv (by omega : (15 : Nat) ≤ 255))]

/-- The 3-digit hex form: each digit `d` becomes the byte `d * 17`. -/
theorem helperColor3Digit (d1 d2 d3 : Char) (v1 v2 v3 : Nat)
    (h1 : hexDigit? d1 = some v1) (h2 : hexDigit? d2 = some v2)
    (h3 : hexDigit? d3 = some v3) :
    parseColor ['#', d1, d2, d3] = .ok ⟨v1 * 17, v2 * 17, v3 * 17⟩ := by
  have u0 : '#'.utf8Size = 1 := by decide
  obtain ⟨u1, -, -⟩ := helperHexDigitProps d1 v1 h1
  obtain ⟨u2, -, -⟩ := helperHexDigitProps d2 v2 h2
  obtain ⟨u3, -, -⟩ := helperHexDigitProps d3 v3 h3
  unfold parseColor
  simp only [List.head?_cons, List.map_cons, List.map_nil, List.sum_cons,
    List.sum_nil, u0, u1, u2, u3, List.length_cons, List.length_nil,
    List.drop_succ_cons, List.drop_zero, List.take_succ_cons, List.take_zero]
  norm_num
  rw [helperHexComponent1 d1 v1 h1, helperHexComponent1 d2 v2 h2,
    helperHexComponent1 d3 v3 h3]

/-- Any 5-character string starting with `#` fails with the length error. -/
theorem helperColorLen5 (cs : List Char) (hl : cs.length = 5)
    (hh : cs.head? = some '#') :
    parseColor cs = .error (.invalidHexLength cs) := by
  unfold parseColor
  rw [if_pos hh]
  by_cases hs : (cs.map Char.utf8Size).sum ≠ cs.length
  · rw [if_pos hs]
  · rw [if_neg hs, hl]
    norm_num

/-- C7: `"#fff"` and `"#ffffff"` both parse to white (255, 255, 255);
`"#000"` parses to black; in the 3-digit form every hex digit `d` becomes
the byte `d * 17`; and every 5-character string starting with `#` fails
with the length error ("not a valid 3 or 6 character hex code"). -/
theorem c7_color_roundtrip :
    parseColor "#fff".toList = .ok Color.white ∧
    parseColor "#ffffff".toList = parseColor "#fff".toList ∧
    parseColor "#fff".toList = .ok ⟨255, 255, 255⟩ ∧
    parseColor "#000".toList = .ok Color.black ∧
    (∀ (d1 d2 d3 : Char) (v1 v2 v3 : Nat),
      hexDigit? d1 = some v1 → hexDigit? d2 = some v2 → hexDigit? d3 = some v3 →
      parseColor ['#', d1, d2, d3] = .ok ⟨v1 * 17, v2 * 17, v3 * 17⟩) ∧
    (∀ cs : List Char, cs.length = 5 → cs.head? = some '#' →
      parseColor cs = .error (.invalidHexLength cs)) :=
  ⟨by decide, by decide, by decide, by decide,
   fun d1 d2 d3 v1 v2 v3 h1 h2 h3 => helperColor3Digit d1 d2 d3 v1 v2 v3 h1 h2 h3,
   fun cs hl hh => helperColorLen5 cs hl hh⟩

/-- Witness for C7: the hypothesis-bearing conjuncts at concrete inputs —
`"#abc"` parses digit-wise to (10·17, 11·17, 12·17) and the 5-character
string `"#abcd"` fails with the length error. -/
theorem c7_color_roundtrip_witness :
    parseColor "#abc".toList = .ok ⟨10 * 17, 11 * 17, 12 * 17⟩ ∧
    parseColor "#abcd".toList = .error (.invalidHexLength "#abcd".toList) :=
  ⟨c7_color_roundtrip.2.2.2.2.1 'a' 'b' 'c' 10 11 12 (by decide) (by decide) (by decide),
   c7_color_roundtrip.2.2.2.2.2 "#abcd".toList (by decide) (by decide)⟩

/-- C10: in the named-color vocabulary, `"green"` parses to (0, 255, 255),
the same value `"cyan"` parses to, and `"magenta"` parses to
(255, 255, 255), the same value `"white"` parses to: these distinct names
do not denote distinct color values. -/
theorem c10_color_name_collisions :
    parseColor "green".toList = .ok ⟨0, 255, 255⟩ ∧
    parseColor "cyan".toList = parseColor "green".toList ∧
    parseColor "magenta".toList = .ok ⟨255, 255, 255⟩ ∧
    parseColor "white".toList = parseColor "magenta".toList ∧
    Color.green = Color.cyan ∧ Color.magenta = Color.white := by
  decide

theorem helperAnimStep (t : List Char) (L : List (List Char)) (idx : Nat)
    (keys : List AnimStateKey) (k : AnimStateKey) (hkn : k ≠ .Normal)
    (hkt : trimChars t = keyName k) :
    animStateLoop (t :: L) idx keys false =
      (if idx ≥ 4 then .error .tooManyKeys
       else
         match addIfNotAlreadyPresent keys idx k with
         | .error e => .error e
         | .ok keys2 => animStateLoop L (idx + 1) keys2 false) := by
  simp only [animStateLoop]
  by_cases hidx : idx ≥ 4
  · rw [if_pos hidx, if_pos hidx]
  · rw [if_neg hidx, if_neg hidx]
    simp only [if_false, Bool.false_eq_true, ite_false]
    cases k with
    | Normal => exact absurd rfl hkn
    | Hover =>
      rw [hkt]
      rw [if_neg (by decide : ¬ (keyName AnimStateKey.Hover = "Normal".toList))]
      rw [if_pos (by decide : keyName AnimStateKey.Hover = "Hover".toList)]
    | Pressed =>
      rw [hkt]
      rw [if_neg (by decide : ¬ (keyName AnimStateKey.Pressed = "Normal".toList))]
      rw [if_neg (by decide : ¬ (keyName AnimStateKey.Pressed = "Hover".toList))]
      rw [if_pos (by decide : keyName AnimStateKey.Pressed = "Pressed".toList)]
    | Disabled =>
      rw [hkt]
      rw [if_neg (by decide : ¬ (keyName AnimStateKey.Disabled = "Normal".toList))]
      rw [if_neg (by decide : ¬ (keyName AnimStateKey.Disabled = "Hover".toList))]
      rw [if_neg (by decide : ¬ (keyName AnimStateKey.Disabled = "Pressed".toList))]
      rw [if_pos (by decide : keyName AnimStateKey.Disabled = "Disabled".toList)]
    | Active =>
      rw [hkt]
      rw [if_neg (by decide : ¬ (keyName AnimStateKey.Active = "Normal".toList))]
      rw [if_neg (by decide : ¬ (keyName AnimStateKey.Active = "Hover".toList))]
      rw [if_neg (by decide : ¬ (keyName AnimStateKey.Active = "Pressed".toList))]
      rw [if_neg (by decide : ¬ (keyName AnimStateKey.Active = "Disabled".toList))]
      rw [if_pos (by decide : keyName AnimStateKey.Active = "Active".toList)]
theorem helperAnimRun (pre : List (List Char)) :
    ∀ (rest : List (List Char)) (done : List AnimStateKey),
    (∀ t ∈ pre, ValidKeyToken t) →
    (done ++ pre.map tokenKey).Nodup →
    done.length + pre.length ≤ 4 →
    animStateLoop (pre ++ rest) done.length
      (done ++ List.replicate (4 - done.length) .Normal) false
      = animStateLoop rest (done.length + pre.length)
        ((done ++ pre.map tokenKey) ++
          List.replicate (4 - (done.length + pre.length)) .Normal) false := by
  induction pre with
  | nil =>
    intro rest done hv hnd hlen
    simp
  | cons t pre ih =>
    intro rest done hv hnd hlen
    obtain ⟨k, hkn, hkt⟩ := hv t (by simp)
    have htk : tokenKey t = k := by
      cases k
      case Normal => exact absurd rfl hkn
      all_goals unfold tokenKey; rw [hkt]; decide
    have hkd : k ∉ done := by
      intro hmem
      rw [List.nodup_append] at hnd
      exact hnd.2.2 hmem (by simp [htk])
    have hlen4 : done.length < 4 := by
      simp only [List.length_cons] at hlen
      omega
    rw [List.cons_append, helperAnimStep t (pre ++ rest) done.length _ k hkn hkt]
    rw [if_neg (by omega : ¬ done.length ≥ 4)]
    unfold addIfNotAlreadyPresent
    rw [List.take_left, if_neg hkd]
    have hset : (done ++ List.replicate (4 - done.length) AnimStateKey.Normal).set done.length k
        = (done ++ [k]) ++ List.replicate (4 - (done.length + 1)) AnimStateKey.Normal := by
      rw [List.set_append_right _ _ (le_refl done.length), Nat.sub_self]
      have h4 : 4 - done.length = (4 - (done.length + 1)) + 1 := by omega
      rw [h4, List.replicate_succ]
      simp [List.set]
    rw [hset]
    change animStateLoop (pre ++ rest) (done.length + 1)
      (done ++ [k] ++ List.replicate (4 - (done.length + 1)) AnimStateKey.Normal) false = _
    have hres := ih rest (done ++ [k])
      (fun x hx => hv x (by simp [hx]))
      (by
        rw [List.map_cons, htk] at hnd
        simpa [List.append_assoc] using hnd)
      (by
        simp only [List.length_append, List.length_cons, List.length_nil] at hlen ⊢
        omega)
    simp only [List.length_append, List.length_cons, List.length_nil] at hres
    rw [show done.length + (0 + 1) = done.length + 1 from by omega] at hres
    rw [hres]
    simp only [List.map_cons, htk, List.length_cons, List.append_assoc,
      List.cons_append, List.singleton_append, List.nil_append]
    rw [show done.length + (pre.length + 1) = done.length + 1 + pre.length from by omega]
theorem helperAnimDup (toks : List (List Char)) :
    ∀ done : List AnimStateKey,
    (∀ t ∈ toks, ValidKeyToken t) → done.Nodup →
    done.length + toks.length ≤ 4 →
    ¬ (done ++ toks.map tokenKey).Nodup →
    ∃ k, animStateLoop toks done.length
      (done ++ List.replicate (4 - done.length) .Normal) false
      = .error (.duplicateKey k) := by
  induction toks with
  | nil =>
    intro done hv hnd hlen hdup
    exact absurd (by simpa using hnd) hdup
  | cons t toks ih =>
    intro done hv hnd hlen hdup
    obtain ⟨k, hkn, hkt⟩ := hv t (by simp)
    have htk : tokenKey t = k := by
      cases k
      case Normal => exact absurd rfl hkn
      all_goals unfold tokenKey; rw [hkt]; decide
    have hlen4 : done.length < 4 := by
      simp only [List.length_cons] at hlen
      omega
    rw [helperAnimStep t toks done.length _ k hkn hkt]
    rw [if_neg (by omega : ¬ done.length ≥ 4)]
    unfold addIfNotAlreadyPresent
    rw [List.take_left]
    by_cases hmem : k ∈ done
    · rw [if_pos hmem]
      exact ⟨k, rfl⟩
    · rw [if_neg hmem]
      have hset : (done ++ List.replicate (4 - done.length) AnimStateKey.Normal).set done.length k
          = (done ++ [k]) ++ List.replicate (4 - (done.length + 1)) AnimStateKey.Normal := by
        rw [List.set_append_right _ _ (le_refl done.length), Nat.sub_self]
        have h4 : 4 - done.length = (4 - (done.length + 1)) + 1 := by omega
        rw [h4, List.replicate_succ]
        simp [List.set]
      rw [hset]
      have hres := ih (done ++ [k])
        (fun x hx => hv x (by simp [hx]))
        (by simp [List.nodup_append, hnd, hmem])
        (by simp only [List.length_append, List.length_cons, List.length_nil] at hlen ⊢; omega)
        (by
          rw [List.map_cons, htk] at hdup
          intro hc
          exact hdup (by simpa [List.append_assoc] using hc))
      rw [show (done ++ [k]).length = done.length + 1 from by simp] at hres
      exact hres
theorem helperNormalTail (toks : List (List Char)) (idx : Nat)
    (keys : List AnimStateKey) (hne : toks ≠ []) :
    ∃ e, animStateLoop toks idx keys true = .error e := by
  cases toks with
  | nil => exact absurd rfl hne
  | cons t rest =>
    simp only [animStateLoop]
    by_cases hidx : idx ≥ 4
    · exact ⟨.tooManyKeys, by rw [if_pos hidx]⟩
    · exact ⟨.normalNotSole, by rw [if_neg hidx]; simp⟩

theorem helperNormalErr (toks : List (List Char)) :
    ∀ (idx : Nat) (keys : List AnimStateKey) (nf : Bool),
    (∃ t ∈ toks, trimChars t = "Normal".toList) →
    (idx ≠ 0 ∨ nf = true ∨ 2 ≤ toks.length) →
    ∃ e, animStateLoop toks idx keys nf = .error e := by
  induction toks with
  | nil =>
    intro idx keys nf hex hd
    simp at hex
  | cons t rest ih =>
    intro idx keys nf hex hd
    simp only [animStateLoop]
    by_cases hidx : idx ≥ 4
    · exact ⟨.tooManyKeys, by rw [if_pos hidx]⟩
    rw [if_neg hidx]
    cases nf with
    | true => exact ⟨.normalNotSole, by simp⟩
    | false =>
      simp only [Bool.false_eq_true, if_false]
      by_cases hN : trimChars t = "Normal".toList
      · rw [if_pos hN]
        by_cases hz : idx ≠ 0
        · exact ⟨.normalNotSole, by rw [if_pos hz]⟩
        · rw [if_neg hz]
          have hrest : rest ≠ [] := by
            rcases hd with h | h | h
            · exact absurd h hz
            · exact absurd h (by simp)
            · simp only [List.length_cons] at h
              intro hc
              rw [hc] at h
              simp at h
          exact helperNormalTail rest (idx + 1) keys hrest
      · rw [if_neg hN]
        have hex' : ∃ t ∈ rest, trimChars t = "Normal".toList := by
          rcases hex with ⟨x, hx, hxt⟩
          rcases List.mem_cons.mp hx with rfl | hx'
          · exact absurd hxt hN
          · exact ⟨x, hx', hxt⟩
        have hnext : ∀ keys2, ∃ e, animStateLoop rest (idx + 1) keys2 false = .error e :=
          fun keys2 => ih (idx + 1) keys2 false hex' (Or.inl (by omega))
        by_cases h1 : trimChars t = "Hover".toList
        · rw [if_pos h1]
          cases hadd : addIfNotAlreadyPresent keys idx AnimStateKey.Hover with
          | error e => exact ⟨e, rfl⟩
          | ok keys2 => exact hnext keys2
        rw [if_neg h1]
        by_cases h2 : trimChars t = "Pressed".toList
        · rw [if_pos h2]
          cases hadd : addIfNotAlreadyPresent keys idx AnimStateKey.Pressed with
          | error e => exact ⟨e, rfl⟩
          | ok keys2 => exact hnext keys2
        rw [if_neg h2]
        by_cases h3 : trimChars t = "Disabled".toList
        · rw [if_pos h3]
          cases hadd : addIfNotAlreadyPresent keys idx AnimStateKey.Disabled with
          | error e => exact ⟨e, rfl⟩
          | ok keys2 => exact hnext keys2
        rw [if_neg h3]
        by_cases h4 : trimChars t = "Active".toList
        · rw [if_pos h4]
          cases hadd : addIfNotAlreadyPresent keys idx AnimStateKey.Active with
          | error e => exact ⟨e, rfl⟩
          | ok keys2 => exact hnext keys2
        rw [if_neg h4]
        exact ⟨.unknownKey (trimChars t), rfl⟩
theorem helperTooLong (toks : List (List Char)) :
    ∀ (idx : Nat) (keys : List AnimStateKey) (nf : Bool),
    4 < idx + toks.length → toks ≠ [] →
    ∃ e, animStateLoop toks idx keys nf = .error e := by
  induction toks with
  | nil => intro idx keys nf hlen hne; exact absurd rfl hne
  | cons t rest ih =>
    intro idx keys nf hlen hne
    simp only [animStateLoop]
    by_cases hidx : idx ≥ 4
    · exact ⟨.tooManyKeys, by rw [if_pos hidx]⟩
    rw [if_neg hidx]
    have hrest : rest ≠ [] := by
      simp only [List.length_cons] at hlen
      intro hc
      rw [hc] at hlen
      simp at hlen
      omega
    have hlen' : 4 < (idx + 1) + rest.length := by
      simp only [List.length_cons] at hlen
      omega
    cases nf with
    | true => exact ⟨.normalNotSole, by simp⟩
    | false =>
      simp only [Bool.false_eq_true, if_false]
      by_cases hN : trimChars t = "Normal".toList
      · rw [if_pos hN]
        by_cases hz : idx ≠ 0
        · exact ⟨.normalNotSole, by rw [if_pos hz]⟩
        · rw [if_neg hz]
          exact helperNormalTail rest (idx + 1) keys hrest
      · rw [if_neg hN]
        by_cases h1 : trimChars t = "Hover".toList
        · rw [if_pos h1]
          cases hadd : addIfNotAlreadyPresent keys idx AnimStateKey.Hover with
          | error e => exact ⟨e, rfl⟩
          | ok keys2 => exact ih (idx + 1) keys2 false hlen' hrest
        rw [if_neg h1]
        by_cases h2 : trimChars t = "Pressed".toList
        · rw [if_pos h2]
          cases hadd : addIfNotAlreadyPresent keys idx AnimStateKey.Pressed with
          | error e => exact ⟨e, rfl⟩
          | ok keys2 => exact ih (idx + 1) keys2 false hlen' hrest
        rw [if_neg h2]
        by_cases h3 : trimChars t = "Disabled".toList
        · rw [if_pos h3]
          cases hadd : addIfNotAlreadyPresent keys idx AnimStateKey.Disabled with
          | error e => exact ⟨e, rfl⟩
          | ok keys2 => exact ih (idx + 1) keys2 false hlen' hrest
        rw [if_neg h3]
        by_cases h4 : trimChars t = "Active".toList
        · rw [if_pos h4]
          cases hadd : addIfNotAlreadyPresent keys idx AnimStateKey.Active with
          | error e => exact ⟨e, rfl⟩
          | ok keys2 => exact ih (idx + 1) keys2 false hlen' hrest
        rw [if_neg h4]
        exact ⟨.unknownKey (trimChars t), rfl⟩

theorem helperTooMany (toks : List (List Char))
    (hv : ∀ t ∈ toks.take 4, ValidKeyToken t)
    (hnd : ((toks.take 4).map tokenKey).Nodup)
    (hlen : 4 < toks.length) :
    animStateLoop toks 0 (List.replicate 4 .Normal) false = .error .tooManyKeys := by
  have htl : (toks.take 4).length = 4 := by
    rw [List.length_take]
    omega
  have hrun := helperAnimRun (toks.take 4) (toks.drop 4) []
    hv (by simpa using hnd) (by simp [htl])
  rw [List.take_append_drop] at hrun
  simp only [List.length_nil, List.nil_append, Nat.zero_add, Nat.sub_zero, htl] at hrun
  rw [hrun]
  have hdrop : toks.drop 4 ≠ [] := by
    intro hc
    have := List.length_drop 4 toks
    rw [hc] at this
    simp at this
    omega
  cases hd : toks.drop 4 with
  | nil => exact absurd hd hdrop
  | cons t rest =>
    simp only [animStateLoop]
    rw [if_pos (by omega : (0 + 4 : Nat) ≥ 4)]
theorem helperSortPerm (l1 l2 : List AnimStateKey) (h : l1.Perm l2) :
    sortKeys l1 = sortKeys l2 :=
  List.eq_of_perm_of_sorted
    ((List.perm_insertionSort keyLE l1).trans
      (h.trans (List.perm_insertionSort keyLE l2).symm))
    (List.sorted_insertionSort keyLE l1)
    (List.sorted_insertionSort keyLE l2)

theorem helperParseAnim (s : List Char) :
    parseAnimState s = animStateLoop (splitOn '+' s) 0 (List.replicate 4 .Normal) false := rfl

theorem helperAnimOk (toks : List (List Char))
    (hv : ∀ t ∈ toks, ValidKeyToken t)
    (hnd : (toks.map tokenKey).Nodup) (hlen : toks.length ≤ 4) :
    animStateLoop toks 0 (List.replicate 4 .Normal) false
      = .ok (sortKeys (toks.map tokenKey ++ List.replicate (4 - toks.length) .Normal)) := by
  have hrun := helperAnimRun toks [] [] hv (by simpa using hnd) (by simpa using hlen)
  simp only [List.append_nil, List.nil_append, List.length_nil, Nat.zero_add] at hrun
  rw [hrun]
  rfl

/-- C8: two inputs listing the same set of non-Normal keys (in any order,
with any whitespace around the separators) both parse successfully and to
the same canonical sorted key array, hence to interchangeable lookup
keys. -/
theorem c8_anim_state_canonical (s1 s2 : List Char)
    (hv1 : ∀ t ∈ splitOn '+' s1, ValidKeyToken t)
    (hv2 : ∀ t ∈ splitOn '+' s2, ValidKeyToken t)
    (hperm : ((splitOn '+' s1).map tokenKey).Perm ((splitOn '+' s2).map tokenKey))
    (hnd : ((splitOn '+' s1).map tokenKey).Nodup)
    (hlen : (splitOn '+' s1).length ≤ 4) :
    ∃ ks, parseAnimState s1 = .ok ks ∧ parseAnimState s2 = .ok ks := by
  have hlen2 : (splitOn '+' s2).length = (splitOn '+' s1).length := by
    have h := hperm.length_eq
    simp only [List.length_map] at h
    omega
  have hnd2 : ((splitOn '+' s2).map tokenKey).Nodup := hperm.nodup hnd
  refine ⟨sortKeys ((splitOn '+' s1).map tokenKey ++
      List.replicate (4 - (splitOn '+' s1).length) .Normal), ?_, ?_⟩
  · rw [helperParseAnim]
    exact helperAnimOk _ hv1 hnd hlen
  · rw [helperParseAnim, helperAnimOk _ hv2 hnd2 (by omega)]
    congr 1
    apply helperSortPerm
    rw [hlen2]
    exact hperm.symm.append (List.Perm.refl _)

/-- Witness for C8: `"Hover + Active"` and `"Active+Hover"` parse to the
same canonical key. -/
theorem c8_anim_state_canonical_witness :
    ∃ ks, parseAnimState "Hover + Active".toList = .ok ks ∧
      parseAnimState "Active+Hover".toList = .ok ks :=
  c8_anim_state_canonical _ _ (by decide) (by decide) (by decide) (by decide)
    (by decide)

/-- C9: the parser fails exactly on the malformed inputs: a repeated
non-Normal key (among valid keys, within the length bound) fails with the
duplicate-key error; any input containing a (trimmed) `Normal` token
together with at least one other token fails; any input with more than 4
tokens fails, and with the too-many-keys error when its first four tokens
are valid distinct non-Normal keys; every input of at most 4 valid
distinct non-Normal keys parses successfully, as does the sole token
`Normal`. -/
theorem c9_anim_state_errors :
    (∀ s : List Char, (∀ t ∈ splitOn '+' s, ValidKeyToken t) →
      (splitOn '+' s).length ≤ 4 →
      ¬ ((splitOn '+' s).map tokenKey).Nodup →
      ∃ k, parseAnimState s = .error (.duplicateKey k)) ∧
    (∀ s : List Char, (∃ t ∈ splitOn '+' s, trimChars t = "Normal".toList) →
      2 ≤ (splitOn '+' s).length → ∃ e, parseAnimState s = .error e) ∧
    (∀ s : List Char, 4 < (splitOn '+' s).length →
      ∃ e, parseAnimState s = .error e) ∧
    (∀ s : List Char, (∀ t ∈ (splitOn '+' s).take 4, ValidKeyToken t) →
      (((splitOn '+' s).take 4).map tokenKey).Nodup →
      4 < (splitOn '+' s).length →
      parseAnimState s = .error .tooManyKeys) ∧
    (∀ s : List Char, (∀ t ∈ splitOn '+' s, ValidKeyToken t) →
      ((splitOn '+' s).map tokenKey).Nodup →
      (splitOn '+' s).length ≤ 4 →
      ∃ ks, parseAnimState s = .ok ks) ∧
    parseAnimState "Normal".toList = .ok [.Normal, .Normal, .Normal, .Normal] := by
  refine ⟨?_, ?_, ?_, ?_, ?_, by decide⟩
  · intro s hv hlen hdup
    rw [helperParseAnim]
    exact helperAnimDup (splitOn '+' s) [] hv List.nodup_nil (by simpa using hlen)
      (by simpa using hdup)
  · intro s hex hlen
    rw [helperParseAnim]
    exact helperNormalErr (splitOn '+' s) 0 (List.replicate 4 .Normal) false hex
      (Or.inr (Or.inr hlen))
  · intro s hlen
    rw [helperParseAnim]
    refine helperTooLong (splitOn '+' s) 0 (List.replicate 4 .Normal) false
      (by omega) ?_
    intro hc
    rw [hc] at hlen
    simp at hlen
  · intro s hv hnd hlen
    rw [helperParseAnim]
    exact helperTooMany (splitOn '+' s) hv hnd hlen
  · intro s hv hnd hlen
    rw [helperParseAnim]
    exact ⟨_, helperAnimOk _ hv hnd hlen⟩

/-- Witness for C9: each conjunct at a concrete input — `"Hover+Hover"`
gives a duplicate-key error, `"Normal+Hover"` and `"Hover+Normal"` fail,
a 5-key input fails with too-many-keys, and `"Hover + Active"` parses. -/
theorem c9_anim_state_errors_witness :
    (∃ k, parseAnimState "Hover+Hover".toList = .error (.duplicateKey k)) ∧
    (∃ e, parseAnimState "Normal+Hover".toList = .error e) ∧
    (∃ e, parseAnimState "Hover+Normal".toList = .error e) ∧
    (∃ e, parseAnimState "Hover+Pressed+Disabled+Active+Hover".toList = .error e) ∧
    parseAnimState "Hover+Pressed+Disabled+Active+Hover".toList = .error .tooManyKeys ∧
    (∃ ks, parseAnimState "Hover + Active".toList = .ok ks) :=
  ⟨c9_anim_state_errors.1 _ (by decide) (by decide) (by decide),
   c9_anim_state_errors.2.1 _ (by decide) (by decide),
   c9_anim_state_errors.2.1 _ (by decide) (by decide),
   c9_anim_state_errors.2.2.1 _ (by decide),
   c9_anim_state_errors.2.2.2.1 _ (by decide) (by decide) (by decide),
   c9_anim_state_errors.2.2.2.2.1 _ (by decide) (by decide) (by decide)⟩

/-- The pass counter never exceeds the remaining iteration budget. -/
theorem helperPassesLe : ∀ (r : Nat) (s : ResolveState), resolveLoopPasses r s ≤ r := by
  intro r
  induction r with
  | zero => intro s; simp [resolveLoopPasses]
  | succ n ih =>
    intro s
    unfold resolveLoopPasses
    cases resolvePass (snapshotOf s) s false with
    | error e => exact Nat.succ_le_succ (Nat.zero_le n)
    | ok p =>
      cases p with
      | mk s2 foundNew =>
        cases foundNew with
        | true =>
          show 1 + resolveLoopPasses n s2 ≤ n + 1
          have := ih s2
          omega
        | false => exact Nat.succ_le_succ (Nat.zero_le n)

/-- A pass over handles whose records have no pending reference changes
nothing and reports no pending reference found. -/
theorem helperPassNoop (toIds : List Nat) (s : ResolveState) (b : Bool)
    (h : ∀ t ∈ toIds, (getTheme s.themes t).fromRef = none) :
    resolvePass toIds s b = .ok (s, b) := by
  induction toIds with
  | nil => rfl
  | cons t rest ih =>
    unfold resolvePass resolvePassStep
    rw [h t (by simp)]
    exact ih (fun x hx => h x (by simp [hx]))

/-- C3: on the two-element reference cycle `A.from = B`, `B.from = A` the
resolver terminates with the circular-reference error after exactly the
maximum of 20 passes, and on every input the fixpoint loop performs at
most 20 passes. -/
theorem c3_cycle_bounded :
    resolveFromRefs cycleState = .error (.circularReference 20) ∧
    resolvePasses cycleState = 20 ∧
    (∀ s : ResolveState, resolvePasses s ≤ MAX_ITERATIONS) :=
  ⟨by decide, by decide, fun s => helperPassesLe MAX_ITERATIONS s⟩

/-- C6: resolving an arena in which no record has a pending reference is
a no-op: the loop returns the input state — arena, path index and handle
counter unchanged — after a single pass that found nothing. -/
theorem c6_resolve_noop (s : ResolveState)
    (hb : ∀ p ∈ s.themeHandles, p.2 < s.themes.length)
    (hn : ∀ i, i < s.themes.length → (getTheme s.themes i).fromRef = none) :
    resolveFromRefs s = .ok s := by
  have hsnap : ∀ t ∈ snapshotOf s, (getTheme s.themes t).fromRef = none := by
    intro t ht
    obtain ⟨p, hp, rfl⟩ := List.mem_map.mp ht
    exact hn p.2 (hb p hp)
  show resolveLoopAux 20 0 s = .ok s
  rw [show (20 : Nat) = 19 + 1 from rfl]
  unfold resolveLoopAux
  rw [helperPassNoop (snapshotOf s) s false hsnap]
  rfl

/-- Witness for C6: resolving the already-resolved one-theme arena
returns it unchanged. -/
theorem c6_resolve_noop_witness : resolveFromRefs noopState = .ok noopState :=
  c6_resolve_noop noopState (by decide) (by decide)

theorem helperGetSetSelf (themes : List WidgetTheme) (i : Nat) (t : WidgetTheme)
    (h : i < themes.length) : getTheme (themes.set i t) i = t := by
  unfold getTheme
  rw [List.getD_eq_getElem?_getD, List.getElem?_set_self (by simpa using h)]
  rfl

theorem helperGetSetNe (themes : List WidgetTheme) (i j : Nat) (t : WidgetTheme)
    (h : i ≠ j) : getTheme (themes.set i t) j = getTheme themes j := by
  unfold getTheme
  rw [List.getD_eq_getElem?_getD, List.getElem?_set_ne h, ← List.getD_eq_getElem?_getD]

theorem helperGetAppendLt (themes extra : List WidgetTheme) (i : Nat)
    (h : i < themes.length) : getTheme (themes ++ extra) i = getTheme themes i := by
  unfold getTheme
  rw [List.getD_eq_getElem?_getD, List.getElem?_append_left h, ← List.getD_eq_getElem?_getD]

theorem helperGetAppendAt (themes : List WidgetTheme) (t : WidgetTheme) :
    getTheme (themes ++ [t]) themes.length = t := by
  unfold getTheme
  rw [List.getD_eq_getElem?_getD, List.getElem?_concat_length]
  rfl

theorem helperAcrStep (fromId toId : Nat) (s : ResolveState)
    (hw : WF s) (ht : toId < s.themes.length) :
    (acrStep fromId toId s).themes.length = s.themes.length + 1 ∧
    (acrStep fromId toId s).handleIndex = s.themes.length + 1 ∧
    (∀ i, i < s.themes.length → i ≠ toId →
      getTheme (acrStep fromId toId s).themes i = getTheme s.themes i) ∧
    getTheme (acrStep fromId toId s).themes toId
      = { getTheme s.themes toId with
          children := (getTheme s.themes toId).children ++ [s.themes.length] } ∧
    getTheme (acrStep fromId toId s).themes s.themes.length
      = { getTheme s.themes fromId with
          full_id := (getTheme s.themes toId).full_id ++ "/" ++ (getTheme s.themes fromId).id,
          handle := s.themes.length,
          parent_handle := some toId, children := [] } ∧
    WF (acrStep fromId toId s) := by
  obtain ⟨hidx, hch⟩ := hw
  have hlen1 : (acrStep fromId toId s).themes.length = s.themes.length + 1 := by
    simp [acrStep]
  have hne : ∀ i, i < s.themes.length → i ≠ toId →
      getTheme (acrStep fromId toId s).themes i = getTheme s.themes i := by
    intro i hi hne
    show getTheme ((s.themes.set toId _) ++ [_]) i = _
    rw [helperGetAppendLt _ _ _ (by simpa using hi), helperGetSetNe _ _ _ _ (Ne.symm hne)]
  have hto : getTheme (acrStep fromId toId s).themes toId
      = { getTheme s.themes toId with
          children := (getTheme s.themes toId).children ++ [s.themes.length] } := by
    show getTheme ((s.themes.set toId _) ++ [_]) toId = _
    rw [helperGetAppendLt _ _ _ (by simpa using ht), helperGetSetSelf _ _ _ ht, hidx]
  have hnew : getTheme (acrStep fromId toId s).themes s.themes.length
      = { getTheme s.themes fromId with
          full_id := (getTheme s.themes toId).full_id ++ "/" ++ (getTheme s.themes fromId).id,
          handle := s.themes.length,
          parent_handle := some toId, children := [] } := by
    show getTheme ((s.themes.set toId _) ++ [_]) s.themes.length = _
    rw [show s.themes.length = (s.themes.set toId _).length from (by simp),
      helperGetAppendAt]
    simp [hidx]
  refine ⟨hlen1, by simp [acrStep, hidx], hne, hto, hnew, ?_⟩
  refine ⟨by simp [acrStep, hidx], ?_⟩
  intro i hi c hc
  rw [hlen1] at hi
  rcases Nat.lt_succ_iff_lt_or_eq.mp hi with hi' | rfl
  · by_cases hito : i = toId
    · subst hito
      rw [hto] at hc
      simp only [List.mem_append, List.mem_singleton] at hc
      rcases hc with hc | rfl
      · have := hch i hi' c hc
        omega
      · omega
    · rw [hne i hi' hito] at hc
      have := hch i hi' c hc
      omega
  · rw [hnew] at hc
    simp at hc
theorem helperAclStep (fc : Nat) (fullId : String) (s : ResolveState) :
    (aclStep fc fullId s).themes.length = s.themes.length ∧
    (∀ i, fieldsOf (getTheme (aclStep fc fullId s).themes i) = fieldsOf (getTheme s.themes i) ∧
      (getTheme (aclStep fc fullId s).themes i).children = (getTheme s.themes i).children ∧
      (getTheme (aclStep fc fullId s).themes i).handle = (getTheme s.themes i).handle ∧
      (getTheme (aclStep fc fullId s).themes i).parent_handle = (getTheme s.themes i).parent_handle) ∧
    (aclStep fc fullId s).handleIndex = s.handleIndex ∧
    (WF s → WF (aclStep fc fullId s)) := by
  have hitem : ∀ i, fieldsOf (getTheme (aclStep fc fullId s).themes i) = fieldsOf (getTheme s.themes i) ∧
      (getTheme (aclStep fc fullId s).themes i).children = (getTheme s.themes i).children ∧
      (getTheme (aclStep fc fullId s).themes i).handle = (getTheme s.themes i).handle ∧
      (getTheme (aclStep fc fullId s).themes i).parent_handle = (getTheme s.themes i).parent_handle := by
    intro i
    by_cases hif : i = fc
    · subst hif
      by_cases hlt : i < s.themes.length
      · have hg : getTheme (aclStep i fullId s).themes i
            = { getTheme s.themes i with full_id := fullId ++ "/" ++ (getTheme s.themes i).id } :=
          helperGetSetSelf _ _ _ hlt
        rw [hg]
        exact ⟨rfl, rfl, rfl, rfl⟩
      · have hg : (aclStep i fullId s).themes = s.themes := by
          show s.themes.set i _ = s.themes
          exact List.set_eq_of_length_le (by omega)
        rw [hg]
        exact ⟨rfl, rfl, rfl, rfl⟩
    · have hg : getTheme (aclStep fc fullId s).themes i = getTheme s.themes i :=
        helperGetSetNe _ _ _ _ (Ne.symm hif)
      rw [hg]
      exact ⟨rfl, rfl, rfl, rfl⟩
  refine ⟨by simp [aclStep], hitem, rfl, ?_⟩
  intro ⟨h1, h2⟩
  constructor
  · simpa [aclStep] using h1
  · intro i hi c hc
    rw [(hitem i).2.1] at hc
    have := h2 i (by simpa [aclStep] using hi) c hc
    refine ⟨this.1, ?_⟩
    have hlen : (aclStep fc fullId s).themes.length = s.themes.length := by simp [aclStep]
    omega

theorem helperAclPresOf (fuel : Nat) (hacr : AcrPres fuel) : AclPres fuel := by
  intro fcs
  induction fcs with
  | nil =>
    intro fullId handle s s' hw hh hacl
    simp only [addChildrenList, addChildrenGo] at hacl
    injection hacl with h
    subst h
    exact ⟨hw, le_refl _, fun i _ => ⟨rfl, rfl, rfl⟩, fun i _ _ => rfl⟩
  | cons fc rest ih =>
    intro fullId handle s s' hw hh hacl
    simp only [addChildrenList, addChildrenGo] at hacl
    obtain ⟨hslen, hsit, hsidx, hswf⟩ := helperAclStep fc fullId s
    cases hr : addChildrenRecursive fuel fc handle (aclStep fc fullId s) with
    | none => rw [hr] at hacl; simp at hacl
    | some s2 =>
      rw [hr] at hacl
      have hacl2 : addChildrenList fuel rest fullId handle s2 = some s' := hacl
      obtain ⟨hwf2, hlen2, hpres2, hch2, hcht2, hclone2⟩ :=
        hacr fc handle (aclStep fc fullId s) s2 (hswf hw) (by omega) hr
      obtain ⟨hwf', hlen', hpres', hch'⟩ := ih fullId handle s2 s' hwf2 (by omega) hacl2
      refine ⟨hwf', by omega, ?_, ?_⟩
      · intro i hi
        have e1 := hsit i
        have e2 := hpres2 i (by omega)
        have e3 := hpres' i (by omega)
        exact ⟨(e3.1.trans e2.1).trans e1.1,
               (e3.2.1.trans e2.2.1).trans e1.2.2.1,
               (e3.2.2.trans e2.2.2).trans e1.2.2.2⟩
      · intro i hi hneH
        have e1 := (hsit i).2.1
        have e2 := hch2 i (by omega) hneH
        have e3 := hch' i (by omega) hneH
        rw [e3, e2, e1]

theorem helperAcrPres : ∀ fuel, AcrPres fuel := by
  intro fuel
  induction fuel with
  | zero =>
    intro fromId toId s s' hw ht hacr
    simp [addChildrenRecursive] at hacr
  | succ n ih =>
    intro fromId toId s s' hw ht hacr
    obtain ⟨hlen1, hidx1, hne1, hto1, hnew1, hwf1⟩ := helperAcrStep fromId toId s hw ht
    have hhidx : s.handleIndex = s.themes.length := hw.1
    have hacl : addChildrenList n (getTheme s.themes fromId).children
        ((getTheme s.themes toId).full_id ++ "/" ++ (getTheme s.themes fromId).id)
        s.themes.length (acrStep fromId toId s) = some s' := by
      have h0 : addChildrenList n (getTheme s.themes fromId).children
          ((getTheme s.themes toId).full_id ++ "/" ++ (getTheme s.themes fromId).id)
          s.handleIndex (acrStep fromId toId s) = some s' := hacr
      rwa [hhidx] at h0
    obtain ⟨hwf', hlen', hpres', hch'⟩ :=
      helperAclPresOf n ih _ _ _ (acrStep fromId toId s) s' hwf1 (by omega) hacl
    have hpresS : ∀ i, i < s.themes.length →
        EqExceptPath (getTheme s.themes i) (getTheme s'.themes i) := by
      intro i hi
      have e3 := hpres' i (by omega)
      by_cases hito : i = toId
      · subst hito
        rw [hto1] at e3
        exact ⟨e3.1, e3.2.1, e3.2.2⟩
      · rw [hne1 i hi hito] at e3
        exact e3
    refine ⟨hwf', by omega, hpresS, ?_, ?_, ?_⟩
    · intro i hi hneT
      have e3 := hch' i (by omega) (by omega)
      rw [e3, hne1 i hi hneT]
    · have e3 := hch' toId (by omega) (by omega)
      rw [e3, hto1]
    · have e3 := hpres' s.themes.length (by omega)
      rw [hnew1] at e3
      exact e3.1

theorem helperIdOfFields {t t2 : WidgetTheme} (h : fieldsOf t = fieldsOf t2) :
    t.id = t2.id :=
  congrArg ScalarFields.id h

theorem helperAnyCongr {α : Type} (l : List α) (p q : α → Bool)
    (h : ∀ a ∈ l, p a = q a) : l.any p = l.any q := by
  induction l with
  | nil => rfl
  | cons a l ih =>
    simp only [List.any_cons]
    rw [h a (by simp), ih (fun x hx => h x (by simp [hx]))]

theorem helperAmPres (fuel : Nat) : AmPres fuel := by
  intro fcs
  induction fcs with
  | nil =>
    intro tcs toId s s' hw ht hfc htc ham
    simp only [addMissingChildren] at ham
    injection ham with h
    subst h
    exact ⟨hw, le_refl _, fun i _ => ⟨rfl, rfl, rfl⟩, fun i _ _ => rfl,
      [], by simp, by simp⟩
  | cons fc rest ih =>
    intro tcs toId s s' hw ht hfc htc ham
    simp only [addMissingChildren] at ham
    by_cases hfound : tcs.any
        (fun tc => (getTheme s.themes fc).id == (getTheme s.themes tc).id) = true
    · rw [if_pos hfound] at ham
      obtain ⟨hwf', hlen', hpres', hch', added, hchAdd, hids⟩ :=
        ih tcs toId s s' hw ht (fun x hx => hfc x (by simp [hx])) htc ham
      refine ⟨hwf', hlen', hpres', hch', added, hchAdd, ?_⟩
      rw [hids, List.filter_cons]
      simp [hfound]
    · rw [if_neg hfound] at ham
      cases hr : addChildrenRecursive fuel fc toId s with
      | none => rw [hr] at ham; simp at ham
      | some s2 =>
        rw [hr] at ham
        have ham2 : addMissingChildren fuel rest tcs toId s2 = some s' := ham
        obtain ⟨hwf2, hlen2, hpres2, hch2, hcht2, hclone2⟩ :=
          helperAcrPres fuel fc toId s s2 hw ht hr
        obtain ⟨hwf', hlen', hpres', hch', added', hchAdd', hids'⟩ :=
          ih tcs toId s2 s' hwf2 (by omega)
            (fun x hx => lt_of_lt_of_le (hfc x (by simp [hx])) (le_of_lt hlen2))
            (fun x hx => lt_of_lt_of_le (htc x hx) (le_of_lt hlen2)) ham2
        have hid2 : ∀ x, x < s.themes.length →
            (getTheme s2.themes x).id = (getTheme s.themes x).id := by
          intro x hx
          exact helperIdOfFields (hpres2 x hx).1
        have hid' : ∀ x, x < s2.themes.length →
            (getTheme s'.themes x).id = (getTheme s2.themes x).id := by
          intro x hx
          exact helperIdOfFields (hpres' x hx).1
        refine ⟨hwf', by omega, ?_, ?_, s.themes.length :: added', ?_, ?_⟩
        · intro i hi
          have e2 := hpres2 i hi
          have e3 := hpres' i (by omega)
          exact ⟨e3.1.trans e2.1, e3.2.1.trans e2.2.1, e3.2.2.trans e2.2.2⟩
        · intro i hi hne
          rw [hch' i (by omega) hne, hch2 i hi hne]
        · rw [hchAdd', hcht2, List.append_assoc]
          rfl
        · rw [List.map_cons]
          have h1 : (getTheme s'.themes s.themes.length).id = (getTheme s.themes fc).id := by
            rw [hid' s.themes.length (by omega)]
            exact helperIdOfFields hclone2
          have h2 : added'.map (fun h => (getTheme s'.themes h).id)
              = (rest.filter (fun fc2 => ! tcs.any
                  (fun tc => (getTheme s.themes fc2).id == (getTheme s.themes tc).id))).map
                  (fun fc2 => (getTheme s.themes fc2).id) := by
            rw [hids']
            have hfeq : rest.filter (fun fc2 => ! tcs.any
                  (fun tc => (getTheme s2.themes fc2).id == (getTheme s2.themes tc).id))
                = rest.filter (fun fc2 => ! tcs.any
                  (fun tc => (getTheme s.themes fc2).id == (getTheme s.themes tc).id)) := by
              apply List.filter_congr
              intro a ha
              have hax : a < s.themes.length := hfc a (by simp [ha])
              rw [hid2 a hax]
              congr 1
              apply helperAnyCongr
              intro tc htcm
              rw [hid2 tc (htc tc htcm)]
            rw [hfeq]
            apply List.map_congr_left
            intro a ha
            have haf := List.mem_filter.mp ha
            exact hid2 a (hfc a (by simp [haf.1]))
          rw [h1, h2, List.filter_cons]
          simp [hfound]

theorem helperMmPresOf (fuel : Nat) (hmf : MfPres fuel) : MmPres fuel := by
  intro tcs
  induction tcs with
  | nil =>
    intro fcs lo s s' hw htc hfc hmm
    simp only [mergeMatching, mergeChildPairs] at hmm
    injection hmm with h
    subst h
    exact ⟨hw, le_refl _, fun i _ => rfl, fun i _ _ => ⟨rfl, rfl⟩⟩
  | cons childId rest ih =>
    intro fcs lo s s' hw htc hfc hmm
    simp only [mergeMatching, mergeChildPairs] at hmm
    cases hfind : fcs.find?
        (fun fc => (getTheme s.themes fc).id == (getTheme s.themes childId).id) with
    | none =>
      rw [hfind] at hmm
      exact ih fcs lo s s' hw (fun tc htcm => htc tc (by simp [htcm])) hfc hmm
    | some fromId =>
      rw [hfind] at hmm
      have hmm' : (match mergeFrom fuel fromId childId s with
          | none => none
          | some s2 => mergeMatching fuel rest fcs s2) = some s' := hmm
      cases hr : mergeFrom fuel fromId childId s with
      | none => rw [hr] at hmm'; simp at hmm'
      | some s2 =>
        rw [hr] at hmm'
        have hmm2 : mergeMatching fuel rest fcs s2 = some s' := hmm' 
        have hfromlt : fromId < s.themes.length :=
          hfc fromId (List.mem_of_find?_eq_some hfind)
        obtain ⟨hwf2, hlen2, hid2, hlow2, -, -⟩ :=
          hmf fromId childId s s2 hw (htc childId (by simp)).1 hfromlt hr
        obtain ⟨hwf', hlen', hid', hlow'⟩ := ih fcs lo s2 s' hwf2
          (fun tc htcm => ⟨lt_of_lt_of_le (htc tc (by simp [htcm])).1 hlen2,
            (htc tc (by simp [htcm])).2⟩)
          (fun fc hfcm => lt_of_lt_of_le (hfc fc hfcm) hlen2) hmm2
        refine ⟨hwf', by omega, ?_, ?_⟩
        · intro i hi
          rw [hid' i (by omega), hid2 i hi]
        · intro i hi hle
          have hlt : i < childId := lt_of_le_of_lt hle (htc childId (by simp)).2
          have e2 := hlow2 i hi hlt
          have e3 := hlow' i (by omega) hle
          exact ⟨e3.1.trans e2.1, e3.2.trans e2.2⟩
theorem helperMfStep (fromId toId : Nat) (s : ResolveState)
    (hw : WF s) (ht : toId < s.themes.length) :
    (mfStep fromId toId s).themes.length = s.themes.length ∧
    (∀ i, i ≠ toId →
      getTheme (mfStep fromId toId s).themes i = getTheme s.themes i) ∧
    getTheme (mfStep fromId toId s).themes toId
      = mergeFromScalars (getTheme s.themes fromId) (getTheme s.themes toId) ∧
    WF (mfStep fromId toId s) := by
  have hlen : (mfStep fromId toId s).themes.length = s.themes.length := by
    simp [mfStep]
  have hne : ∀ i, i ≠ toId →
      getTheme (mfStep fromId toId s).themes i = getTheme s.themes i := by
    intro i hne
    exact helperGetSetNe _ _ _ _ (Ne.symm hne)
  have hto : getTheme (mfStep fromId toId s).themes toId
      = mergeFromScalars (getTheme s.themes fromId) (getTheme s.themes toId) :=
    helperGetSetSelf _ _ _ ht
  refine ⟨hlen, hne, hto, by simpa [mfStep] using hw.1, ?_⟩
  intro i hi c hc
  rw [hlen] at hi
  have hch : (getTheme (mfStep fromId toId s).themes i).children
      = (getTheme s.themes i).children := by
    by_cases hito : i = toId
    · subst hito
      rw [hto]
      rfl
    · rw [hne i hito]
  rw [hch] at hc
  have := hw.2 i hi c hc
  omega

theorem helperMfPres : ∀ fuel, MfPres fuel := by
  intro fuel
  induction fuel with
  | zero =>
    intro fromId toId s s' hw ht hf hm
    simp [mergeFrom] at hm
  | succ n ih =>
    intro fromId toId s s' hw ht hf hm
    have hm' : (match mergeMatching n (getTheme s.themes toId).children
          (getTheme s.themes fromId).children (mfStep fromId toId s) with
        | none => none
        | some s2 =>
          addMissingChildren n (getTheme s.themes fromId).children
            (getTheme s.themes toId).children toId s2) = some s' := hm
    obtain ⟨hmsLen, hmsNe, hmsTo, hmsWf⟩ := helperMfStep fromId toId s hw ht
    cases hmm : mergeMatching n (getTheme s.themes toId).children
        (getTheme s.themes fromId).children (mfStep fromId toId s) with
    | none => rw [hmm] at hm'; simp at hm'
    | some s2 =>
      rw [hmm] at hm'
      have ham : addMissingChildren n (getTheme s.themes fromId).children
          (getTheme s.themes toId).children toId s2 = some s' := hm' 
      obtain ⟨hwf2, hlen2, hid2, hlow2⟩ := helperMmPresOf n ih
        (getTheme s.themes toId).children (getTheme s.themes fromId).children
        toId (mfStep fromId toId s) s2 hmsWf
        (fun tc htcm => by
          have := hw.2 toId ht tc htcm
          exact ⟨by omega, this.1⟩)
        (fun fc hfcm => by
          have := hw.2 fromId hf fc hfcm
          omega) hmm
      obtain ⟨hwf', hlen', hpres', hch', added, hchAdd, hids⟩ := helperAmPres n
        (getTheme s.themes fromId).children (getTheme s.themes toId).children
        toId s2 s' hwf2 (by omega)
        (fun fc hfcm => by
          have := hw.2 fromId hf fc hfcm
          omega)
        (fun tc htcm => by
          have := hw.2 toId ht tc htcm
          omega) ham
      -- id preservation from s to s2
      have hmsId : ∀ i, (getTheme (mfStep fromId toId s).themes i).id
          = (getTheme s.themes i).id := by
        intro i
        by_cases hito : i = toId
        · subst hito
          rw [hmsTo]
          rfl
        · rw [hmsNe i hito]
      have hidS2 : ∀ i, i < s.themes.length →
          (getTheme s2.themes i).id = (getTheme s.themes i).id := by
        intro i hi
        rw [hid2 i (by omega), hmsId i]
      have hidS' : ∀ i, i < s2.themes.length →
          (getTheme s'.themes i).id = (getTheme s2.themes i).id := by
        intro i hi
        exact helperIdOfFields (hpres' i hi).1
      refine ⟨hwf', by omega, ?_, ?_, ?_, ?_⟩
      · intro i hi
        rw [hidS' i (by omega), hidS2 i hi]
      · intro i hi hlt
        have e2 := hlow2 i (by omega) (le_of_lt hlt)
        have e3 := hpres' i (by omega)
        have e3c := hch' i (by omega) (by omega)
        rw [hmsNe i (by omega)] at e2
        exact ⟨e3.1.trans e2.1, e3c.trans e2.2⟩
      · have e2 := hlow2 toId (by omega) (le_refl toId)
        have e3 := hpres' toId (by omega)
        rw [hmsTo] at e2
        exact e3.1.trans e2.1
      · refine ⟨added, ?_, ?_⟩
        · have e2 := hlow2 toId (by omega) (le_refl toId)
          rw [hmsTo] at e2
          have : (getTheme s2.themes toId).children = (getTheme s.themes toId).children := by
            rw [e2.2]
            rfl
          rw [hchAdd, this]
        · rw [hids]
          have hfeq : (getTheme s.themes fromId).children.filter
                (fun fc => ! (getTheme s.themes toId).children.any
                  (fun tc => (getTheme s2.themes fc).id == (getTheme s2.themes tc).id))
              = (getTheme s.themes fromId).children.filter
                (fun fc => ! (getTheme s.themes toId).children.any
                  (fun tc => (getTheme s.themes fc).id == (getTheme s.themes tc).id)) := by
            apply List.filter_congr
            intro a ha
            have hax : a < s.themes.length := by
              have := hw.2 fromId hf a ha
              omega
            rw [hidS2 a hax]
            congr 1
            apply helperAnyCongr
            intro tc htcm
            have htx : tc < s.themes.length := by
              have := hw.2 toId ht tc htcm
              omega
            rw [hidS2 tc htx]
          rw [hfeq]
          apply List.map_congr_left
          intro a ha
          have haf := List.mem_filter.mp ha
          have hax : a < s.themes.length := by
            have := hw.2 fromId hf a haf.1
            omega
          exact hidS2 a hax

/-- C1 (amended): after a deep merge, each of the fourteen merged
optional scalar fields obeys destination-wins precedence (destination set
keeps the destination value, destination unset takes the source value,
both unset stays unset — that is `overrideIfUnset`); the fields `text`
and `text_color` are not merged at all: the destination's values are kept
even when unset while the source's are set. -/
theorem c1_scalar_merge_precedence (fuel fromId toId : Nat) (s s' : ResolveState)
    (hw : WF s) (ht : toId < s.themes.length) (hf : fromId < s.themes.length)
    (hm : mergeFrom fuel fromId toId s = some s') :
    (getTheme s'.themes toId).wants_mouse
      = overrideIfUnset (getTheme s.themes toId).wants_mouse (getTheme s.themes fromId).wants_mouse ∧
    (getTheme s'.themes toId).font
      = overrideIfUnset (getTheme s.themes toId).font (getTheme s.themes fromId).font ∧
    (getTheme s'.themes toId).background
      = overrideIfUnset (getTheme s.themes toId).background (getTheme s.themes fromId).background ∧
    (getTheme s'.themes toId).foreground
      = overrideIfUnset (getTheme s.themes toId).foreground (getTheme s.themes fromId).foreground ∧
    (getTheme s'.themes toId).text_align
      = overrideIfUnset (getTheme s.themes toId).text_align (getTheme s.themes fromId).text_align ∧
    (getTheme s'.themes toId).pos
      = overrideIfUnset (getTheme s.themes toId).pos (getTheme s.themes fromId).pos ∧
    (getTheme s'.themes toId).size
      = overrideIfUnset (getTheme s.themes toId).size (getTheme s.themes fromId).size ∧
    (getTheme s'.themes toId).width_from
      = overrideIfUnset (getTheme s.themes toId).width_from (getTheme s.themes fromId).width_from ∧
    (getTheme s'.themes toId).height_from
      = overrideIfUnset (getTheme s.themes toId).height_from (getTheme s.themes fromId).height_from ∧
    (getTheme s'.themes toId).border
      = overrideIfUnset (getTheme s.themes toId).border (getTheme s.themes fromId).border ∧
    (getTheme s'.themes toId).align
      = overrideIfUnset (getTheme s.themes toId).align (getTheme s.themes fromId).align ∧
    (getTheme s'.themes toId).child_align
      = overrideIfUnset (getTheme s.themes toId).child_align (getTheme s.themes fromId).child_align ∧
    (getTheme s'.themes toId).layout
      = overrideIfUnset (getTheme s.themes toId).layout (getTheme s.themes fromId).layout ∧
    (getTheme s'.themes toId).layout_spacing
      = overrideIfUnset (getTheme s.themes toId).layout_spacing (getTheme s.themes fromId).layout_spacing ∧
    (getTheme s'.themes toId).text = (getTheme s.themes toId).text ∧
    (getTheme s'.themes toId).text_color = (getTheme s.themes toId).text_color ∧
    (∀ (α : Type) (v : α) (fromF : Option α), overrideIfUnset (some v) fromF = some v) ∧
    (∀ (α : Type) (fromF : Option α), overrideIfUnset (none : Option α) fromF = fromF) := by
  have hC := (helperMfPres fuel fromId toId s s' hw ht hf hm).2.2.2.2.1
  exact ⟨congrArg ScalarFields.wants_mouse hC, congrArg ScalarFields.font hC,
    congrArg ScalarFields.background hC, congrArg ScalarFields.foreground hC,
    congrArg ScalarFields.text_align hC, congrArg ScalarFields.pos hC,
    congrArg ScalarFields.size hC, congrArg ScalarFields.width_from hC,
    congrArg ScalarFields.height_from hC, congrArg ScalarFields.border hC,
    congrArg ScalarFields.align hC, congrArg ScalarFields.child_align hC,
    congrArg ScalarFields.layout hC, congrArg ScalarFields.layout_spacing hC,
    congrArg ScalarFields.text hC, congrArg ScalarFields.text_color hC,
    fun _ _ _ => rfl, fun _ _ => rfl⟩

/-- Counterexample to C1 as stated: in the `ce1State` merge the
destination's `text` and `text_color` are unset and the source's are set,
yet the merged record leaves both unset — `text` and `text_color` do not
participate in the merge. -/
theorem c1_counterexample :
    (getTheme ce1State.themes 0).text_color = none ∧
    (getTheme ce1State.themes 0).text = none ∧
    (getTheme ce1State.themes 1).text_color = some Color.red ∧
    (getTheme ce1State.themes 1).text = some "x" ∧
    mergeFrom 1 1 0 ce1State = some c1Res ∧
    (getTheme c1Res.themes 0).text_color = none ∧
    (getTheme c1Res.themes 0).text = none := by
  decide

/-- Witness for C1: the amended precedence at the concrete `ce1State`
merge — `wants_mouse` is taken from the source, `text_color` stays
unset. -/
theorem c1_scalar_merge_precedence_witness :
    (getTheme c1Res.themes 0).wants_mouse = some true ∧
    (getTheme c1Res.themes 0).text_color = none := by
  have h := c1_scalar_merge_precedence 1 1 0 ce1State c1Res (by decide) (by decide)
    (by decide) (by decide)
  exact ⟨h.1.trans (by decide),
    (h.2.2.2.2.2.2.2.2.2.2.2.2.2.2.2.1).trans (by decide)⟩

/-- C4 (amended): `merge_from` unconditionally reassigns the
destination's pending reference to the source's pending-reference state
(`to.from = from.from`); in particular a destination child that had its
own pending reference has it replaced (erased when the source child has
none), rather than kept. -/
theorem c4_from_reference_reassigned (fuel fromId toId : Nat) (s s' : ResolveState)
    (hw : WF s) (ht : toId < s.themes.length) (hf : fromId < s.themes.length)
    (hm : mergeFrom fuel fromId toId s = some s') :
    (getTheme s'.themes toId).fromRef = (getTheme s.themes fromId).fromRef := by
  have hC := (helperMfPres fuel fromId toId s s' hw ht hf hm).2.2.2.2.1
  exact congrArg ScalarFields.fromRef hC

/-- Counterexample to C4 as stated: in `ce4State` the destination's child
(index 1) has its own pending reference `"X"`; after the recursive merge
with the source child (index 3, no pending reference) that reference is
erased instead of kept. -/
theorem c4_counterexample :
    (getTheme ce4State.themes 1).fromRef = some "X" ∧
    (getTheme ce4State.themes 3).fromRef = none ∧
    (getTheme ce4State.themes 1).id = (getTheme ce4State.themes 3).id ∧
    mergeFrom 2 2 0 ce4State = some c4Res ∧
    (getTheme c4Res.themes 1).fromRef = none := by
  decide

/-- Witness for C4: the top-level destination of the `ce4State` merge
carries the source's (empty) reference state. -/
theorem c4_from_reference_reassigned_witness :
    (getTheme c4Res.themes 0).fromRef = none := by
  have h := c4_from_reference_reassigned 2 2 0 ce4State c4Res (by decide) (by decide)
    (by decide) (by decide)
  exact h.trans (by decide)

/-- C2 failing input: cloning subtree `A` (with child `B`, full id
`"A/B"`) into destination `D` rewrites the ORIGINAL record `B`'s
`full_id` to the destination-rooted `"D/A/B"` — the source subtree is
mutated by the clone, contradicting the claimed invariant.  (The clones
themselves are the fresh records 3 and 4.) -/
theorem c2_clone_mutates_source_full_id :
    (getTheme ce2State.themes 2).full_id = "A/B" ∧
    addChildrenRecursive 3 1 0 ce2State = some c2Res ∧
    (getTheme c2Res.themes 2).full_id = "D/A/B" ∧
    ¬ (getTheme c2Res.themes 2).full_id = "A/B" ∧
    c2Res.themes.length = 5 ∧
    (getTheme c2Res.themes 3).full_id = "D/A" ∧
    (getTheme c2Res.themes 3).handle = 3 ∧
    (getTheme c2Res.themes 4).full_id = "D/A/B" ∧
    (getTheme c2Res.themes 4).handle = 4 := by
  decide

theorem helperReachesLt (A : List WidgetTheme) (n : Nat)
    (hwf : ∀ i, i < n → ∀ c ∈ (getTheme A i).children, i < c ∧ c < n)
    (a x : Nat) (h : Reaches A a x) (ha : a < n) : a ≤ x ∧ x < n := by
  induction h with
  | refl => exact ⟨le_refl a, ha⟩
  | tail hab hbc ih =>
    obtain ⟨h1, h2⟩ := ih
    have := hwf _ h2 _ hbc
    exact ⟨by omega, this.2⟩

theorem helperReachesPreserve (A B : List WidgetTheme) (n exc a : Nat)
    (hch : ∀ i, i < n → i ≠ exc → (getTheme B i).children = (getTheme A i).children)
    (hwf : ∀ i, i < n → ∀ c ∈ (getTheme A i).children, i < c ∧ c < n)
    (ha : a < n) (hnr : ¬ Reaches A a exc) :
    ∀ x, Reaches B a x → Reaches A a x := by
  intro x h
  induction h with
  | refl => exact Relation.ReflTransGen.refl
  | tail hab hbc ih =>
    rename_i b c
    have haB : Reaches A a b := ih
    have hb : b < n := (helperReachesLt A n hwf a b haB ha).2
    have hbe : b ≠ exc := by
      intro hc
      subst hc
      exact hnr haB
    have hstep : childRel A b c := by
      unfold childRel
      rw [← hch b hb hbe]
      exact hbc
    exact Relation.ReflTransGen.tail haB hstep

theorem helperFTCongr (A B : List WidgetTheme) (h0 : Nat)
    (hag : ∀ x, Reaches A h0 x →
      fieldsOf (getTheme B x) = fieldsOf (getTheme A x) ∧
      (getTheme B x).children = (getTheme A x).children) :
    ∀ d, fieldTreeOf d B h0 = fieldTreeOf d A h0 := by
  intro d
  induction d generalizing h0 with
  | zero => rfl
  | succ d ih =>
    have h00 := hag h0 Relation.ReflTransGen.refl
    show FieldTree.node _ _ = FieldTree.node _ _
    rw [h00.1, h00.2]
    congr 1
    apply List.map_congr_left
    intro c hc
    apply ih
    intro x hx
    apply hag
    exact Relation.ReflTransGen.trans (Relation.ReflTransGen.single hc) hx

theorem helperForall2Trans {α β : Type} {P Q : α → β → Prop} :
    ∀ {hs : List α} {fcs : List β}, List.Forall₂ P hs fcs →
    (∀ h fc, fc ∈ fcs → P h fc → Q h fc) → List.Forall₂ Q hs fcs := by
  intro hs fcs h
  induction h with
  | nil => intro _; exact List.Forall₂.nil
  | cons hpair hrest ih =>
    intro himp
    exact List.Forall₂.cons (himp _ _ (by simp) hpair)
      (ih (fun a b hb hp => himp a b (by simp [hb]) hp))

theorem helperForall2Map {α β : Type} (f : α → FieldTree) (g : β → FieldTree) :
    ∀ {hs : List α} {fcs : List β}, List.Forall₂ (fun h fc => f h = g fc) hs fcs →
    hs.map f = fcs.map g := by
  intro hs fcs h
  induction h with
  | nil => rfl
  | cons hpair hrest ih => simp [List.map_cons, hpair, ih]

theorem helperAclPresAll (fuel : Nat) : AclPres fuel :=
  helperAclPresOf fuel (helperAcrPres fuel)

theorem helperAclTreeOf (fuel : Nat) (hacrT : AcrTree fuel) : AclTree fuel := by
  intro fcs
  induction fcs with
  | nil =>
    intro fullId handle s s' hw hh hsrc hacl
    simp only [addChildrenList, addChildrenGo] at hacl
    injection hacl with h
    subst h
    exact ⟨[], by simp, List.Forall₂.nil⟩
  | cons fc rest ih =>
    intro fullId handle s s' hw hh hsrc hacl
    simp only [addChildrenList, addChildrenGo] at hacl
    obtain ⟨hslen, hsit, hsidx, hswf⟩ := helperAclStep fc fullId s
    have hcr : childRel (aclStep fc fullId s).themes = childRel s.themes := by
      funext a b
      unfold childRel
      rw [(hsit a).2.1]
    have hRsm : Reaches (aclStep fc fullId s).themes = Reaches s.themes := by
      unfold Reaches
      rw [hcr]
    have hFTsm : ∀ x d,
        fieldTreeOf d (aclStep fc fullId s).themes x = fieldTreeOf d s.themes x := by
      intro x d
      exact helperFTCongr s.themes (aclStep fc fullId s).themes x
        (fun y _ => ⟨(hsit y).1, (hsit y).2.1⟩) d
    obtain ⟨hfcn, hfcb⟩ := hsrc fc (by simp)
    cases hr : addChildrenRecursive fuel fc handle (aclStep fc fullId s) with
    | none => rw [hr] at hacl; simp at hacl
    | some s2 =>
      rw [hr] at hacl
      have hacl2 : addChildrenList fuel rest fullId handle s2 = some s' := hacl
      obtain ⟨hwf2, hlen2, hpres2, hch2, hcht2, hclone2⟩ :=
        helperAcrPres fuel fc handle (aclStep fc fullId s) s2 (hswf hw) (by omega) hr
      have hnr : ¬ Reaches (aclStep fc fullId s).themes fc handle := by
        rw [hRsm]
        intro hc
        exact absurd (hfcb handle hc) (lt_irrefl handle)
      have htree2 : ∀ d, fieldTreeOf d s2.themes s.themes.length
          = fieldTreeOf d s.themes fc := by
        intro d
        have h1 := hacrT fc handle (aclStep fc fullId s) s2 (hswf hw)
          (by omega) (by omega) hnr hr d
        rw [hslen] at h1
        exact h1.trans (hFTsm fc d)
      have hchH2 : (getTheme s2.themes handle).children
          = (getTheme s.themes handle).children ++ [s.themes.length] := by
        rw [hcht2, (hsit handle).2.1, hslen]
      have hsrc2 : ∀ fc2 ∈ rest, fc2 < s2.themes.length ∧
          ∀ x, Reaches s2.themes fc2 x → x < handle := by
        intro fc2 hm
        obtain ⟨h1, h2⟩ := hsrc fc2 (by simp [hm])
        refine ⟨by omega, ?_⟩
        intro x hx
        have hback : Reaches s.themes fc2 x := by
          refine helperReachesPreserve s.themes s2.themes s.themes.length handle fc2
            ?_ hw.2 h1 ?_ x hx
          · intro i hi hie
            rw [hch2 i (by omega) hie, (hsit i).2.1]
          · intro hc
            exact absurd (h2 handle hc) (lt_irrefl handle)
        exact h2 x hback
      obtain ⟨hs_rest, hchH', hforall⟩ := ih fullId handle s2 s' hwf2 (by omega) hsrc2 hacl2
      obtain ⟨hwf', hlen', hpres', hch'⟩ :=
        helperAclPresAll fuel rest fullId handle s2 s' hwf2 (by omega) hacl2
      refine ⟨s.themes.length :: hs_rest, ?_, ?_⟩
      · rw [hchH', hchH2, List.append_assoc]
        rfl
      · refine List.Forall₂.cons ?_ ?_
        · intro d
          have htrans : fieldTreeOf d s'.themes s.themes.length
              = fieldTreeOf d s2.themes s.themes.length := by
            apply helperFTCongr s2.themes s'.themes s.themes.length
            intro x hx
            have hxb := helperReachesLt s2.themes s2.themes.length hwf2.2
              s.themes.length x hx (by omega)
            exact ⟨(hpres' x (by omega)).1, hch' x (by omega) (by omega)⟩
          rw [htrans, htree2]
        · refine helperForall2Trans hforall ?_
          intro h fc2 hm hP d
          have hfc2 := hsrc fc2 (by simp [hm])
          have hstep : fieldTreeOf d s2.themes fc2 = fieldTreeOf d s.themes fc2 := by
            apply helperFTCongr s.themes s2.themes fc2
            intro x hx
            have hxb := helperReachesLt s.themes s.themes.length hw.2 fc2 x hx hfc2.1
            have hxh : x < handle := hfc2.2 x hx
            refine ⟨((hpres2 x (by omega)).1).trans (hsit x).1, ?_⟩
            rw [hch2 x (by omega) (by omega), (hsit x).2.1]
          rw [hP d, hstep]

theorem helperAcrTree : ∀ fuel, AcrTree fuel := by
  intro fuel
  induction fuel with
  | zero =>
    intro fromId toId s s' hw hf ht hnr hacr
    simp [addChildrenRecursive] at hacr
  | succ n ih =>
    intro fromId toId s s' hw hf ht hnr hacr
    obtain ⟨hlen1, hidx1, hne1, hto1, hnew1, hwf1⟩ := helperAcrStep fromId toId s hw ht
    have hhidx : s.handleIndex = s.themes.length := hw.1
    have hacl : addChildrenList n (getTheme s.themes fromId).children
        ((getTheme s.themes toId).full_id ++ "/" ++ (getTheme s.themes fromId).id)
        s.themes.length (acrStep fromId toId s) = some s' := by
      have h0 : addChildrenList n (getTheme s.themes fromId).children
          ((getTheme s.themes toId).full_id ++ "/" ++ (getTheme s.themes fromId).id)
          s.handleIndex (acrStep fromId toId s) = some s' := hacr
      rwa [hhidx] at h0
    have hsrc : ∀ fc ∈ (getTheme s.themes fromId).children,
        fc < (acrStep fromId toId s).themes.length ∧
        ∀ x, Reaches (acrStep fromId toId s).themes fc x → x < s.themes.length := by
      intro fc hm
      have hfcb := hw.2 fromId hf fc hm
      have hnrc : ¬ Reaches s.themes fc toId := by
        intro hc
        exact hnr (Relation.ReflTransGen.trans (Relation.ReflTransGen.single hm) hc)
      refine ⟨by omega, ?_⟩
      intro x hx
      have hback : Reaches s.themes fc x := by
        refine helperReachesPreserve s.themes (acrStep fromId toId s).themes
          s.themes.length toId fc ?_ hw.2 (by omega) hnrc x hx
        intro i hi hie
        rw [hne1 i hi hie]
      exact (helperReachesLt s.themes s.themes.length hw.2 fc x hback (by omega)).2
    obtain ⟨hs, hchNewH, hforall⟩ := helperAclTreeOf n ih
      (getTheme s.themes fromId).children
      ((getTheme s.themes toId).full_id ++ "/" ++ (getTheme s.themes fromId).id)
      s.themes.length (acrStep fromId toId s) s' hwf1 (by omega) hsrc hacl
    obtain ⟨hwf', hlen', hpres', hch'⟩ := helperAclPresAll n
      (getTheme s.themes fromId).children
      ((getTheme s.themes toId).full_id ++ "/" ++ (getTheme s.themes fromId).id)
      s.themes.length (acrStep fromId toId s) s' hwf1 (by omega) hacl
    have hchNew : (getTheme s'.themes s.themes.length).children = hs := by
      rw [hchNewH, hnew1]
      show [] ++ hs = hs
      exact List.nil_append hs
    have hfieldsNew : fieldsOf (getTheme s'.themes s.themes.length)
        = fieldsOf (getTheme s.themes fromId) := by
      have e := (hpres' s.themes.length (by omega)).1
      rw [hnew1] at e
      exact e
    intro d
    cases d with
    | zero => rfl
    | succ d =>
      show FieldTree.node _ _ = FieldTree.node _ _
      rw [hfieldsNew, hchNew]
      congr 1
      refine helperForall2Map _ _ (helperForall2Trans hforall ?_)
      intro h fc2 hm hP
      have hfcb := hw.2 fromId hf fc2 hm
      have hnrc : ¬ Reaches s.themes fc2 toId := by
        intro hc
        exact hnr (Relation.ReflTransGen.trans (Relation.ReflTransGen.single hm) hc)
      have hstep : fieldTreeOf d (acrStep fromId toId s).themes fc2
          = fieldTreeOf d s.themes fc2 := by
        apply helperFTCongr s.themes (acrStep fromId toId s).themes fc2
        intro x hx
        have hxb := helperReachesLt s.themes s.themes.length hw.2 fc2 x hx (by omega)
        have hxt : ¬ x = toId := by
          intro hc
          subst hc
          exact hnrc hx
        by_cases hxto : x = toId
        · exact absurd hxto hxt
        · rw [hne1 x (by omega) hxto]
          exact ⟨rfl, rfl⟩
      rw [hP d, hstep]
theorem helperChildUnion (fuel fromId toId : Nat) (s s' : ResolveState)
    (hw : WF s) (ht : toId < s.themes.length) (hf : fromId < s.themes.length)
    (hm : mergeFrom fuel fromId toId s = some s') :
    ∀ c : String, c ∈ childIds s'.themes toId ↔
      c ∈ childIds s.themes toId ∨ c ∈ childIds s.themes fromId := by
  intro c
  obtain ⟨hwf', hlen', hids, hlow, hC, added, hchAdd, haddIds⟩ :=
    helperMfPres fuel fromId toId s s' hw ht hf hm
  simp only [childIds]
  rw [hchAdd, List.map_append]
  have htcs : (getTheme s.themes toId).children.map (fun c2 => (getTheme s'.themes c2).id)
      = (getTheme s.themes toId).children.map (fun c2 => (getTheme s.themes c2).id) := by
    apply List.map_congr_left
    intro tc htc
    exact hids tc (hw.2 toId ht tc htc).2
  rw [htcs, haddIds, List.mem_append]
  constructor
  · rintro (h | h)
    · exact Or.inl h
    · obtain ⟨fc, hfcFil, rfl⟩ := List.mem_map.mp h
      exact Or.inr (List.mem_map.mpr ⟨fc, (List.mem_filter.mp hfcFil).1, rfl⟩)
  · rintro (h | h)
    · exact Or.inl h
    · obtain ⟨fc, hfc, rfl⟩ := List.mem_map.mp h
      by_cases hany : (getTheme s.themes toId).children.any
          (fun tc => (getTheme s.themes fc).id == (getTheme s.themes tc).id) = true
      · left
        obtain ⟨tc, htc, hbeq⟩ := List.any_eq_true.mp hany
        have heq : (getTheme s.themes fc).id = (getTheme s.themes tc).id :=
          beq_iff_eq.mp hbeq
        exact List.mem_map.mpr ⟨tc, htc, heq.symm⟩
      · right
        refine List.mem_map.mpr ⟨fc, ?_, rfl⟩
        exact List.mem_filter.mpr ⟨hfc, by simp [hany]⟩

/-- C5: after a deep merge the destination's child set is the union of
the two sides' local child ids (first conjunct); and each subtree cloned
in by `add_children_recursive` has, at every depth, exactly the source
subtree's field values (second conjunct, for a source subtree not
containing the destination, as in any forest-shaped arena). -/
theorem c5_child_union_and_clone :
    (∀ (fuel fromId toId : Nat) (s s' : ResolveState), WF s →
      toId < s.themes.length → fromId < s.themes.length →
      mergeFrom fuel fromId toId s = some s' →
      ∀ c : String, c ∈ childIds s'.themes toId ↔
        c ∈ childIds s.themes toId ∨ c ∈ childIds s.themes fromId) ∧
    (∀ (fuel fromId toId : Nat) (s s' : ResolveState), WF s →
      fromId < s.themes.length → toId < s.themes.length →
      ¬ Reaches s.themes fromId toId →
      addChildrenRecursive fuel fromId toId s = some s' →
      ∀ d, fieldTreeOf d s'.themes s.themes.length = fieldTreeOf d s.themes fromId) :=
  ⟨fun fuel fromId toId s s' hw ht hf hm =>
      helperChildUnion fuel fromId toId s s' hw ht hf hm,
   fun fuel fromId toId s s' hw hf ht hnr hacr =>
      helperAcrTree fuel fromId toId s s' hw hf ht hnr hacr⟩

/-- Witness for C5 at the concrete `c5State`: the merged destination has
exactly the union child ids (the source-only child "k" appears), and the
clone of the source subtree (at the fresh handle 3) has the source's
field tree at depth 3. -/
theorem c5_child_union_and_clone_witness :
    (("k" : String) ∈ childIds c5Res.themes 0 ↔
      ("k" : String) ∈ childIds c5State.themes 0 ∨ ("k" : String) ∈ childIds c5State.themes 1) ∧
    ("k" : String) ∈ childIds c5Res.themes 0 ∧
    fieldTreeOf 3 c5AcrRes.themes 3 = fieldTreeOf 3 c5State.themes 1 := by
  have h1 := (c5_child_union_and_clone.1) 2 1 0 c5State c5Res (by decide) (by decide)
    (by decide) (by decide) "k"
  have h2 := (c5_child_union_and_clone.2) 2 1 0 c5State c5AcrRes (by decide) (by decide)
    (by decide)
    (fun hr => absurd ((helperReachesLt c5State.themes 3 (by decide) 1 0 hr (by decide)).1) (by decide))
    (by decide) 3
  refine ⟨h1, h1.mpr (Or.inr (by decide)), h2⟩

end Thyme
